import Mathlib

/-!
Verification of the WSI pseudonymization engine.

This file gives a shallow embedding of the byte-rewriting core of the
repository (`compression_utils.py`, `pseudonymisation_utils.py`,
`pseudonymisation.py`) and proves or refutes the frozen specification
claims about it.

A slide file is modelled as a `List Nat` of byte values.  Python's
`f.seek(pos); f.write(data)` on a file opened `r+b` is modelled by
`writeAt`: it overwrites in place, extends the file when the write runs
past the end, and zero-fills any gap created by seeking past the end.
-/

namespace WSIPseudo

/-- `f.seek(off); f.write(d)` on a binary file modelled as a byte list. -/
def writeAt (f : List Nat) (off : Nat) (d : List Nat) : List Nat :=
  f.take off ++ List.replicate (off - f.length) 0 ++ d ++ f.drop (off + d.length)

/-- A sequence of writes at consecutive positions, as performed by a
Python loop of `f.write` calls after a single `f.seek(off)`. -/
def writeSeq (f : List Nat) (off : Nat) (chunks : List (List Nat)) : List Nat :=
  match chunks with
  | [] => f
  | c :: cs => writeSeq (writeAt f off c) (off + c.length) cs

/-- The append loop of `replace_label_with_pseudonym_svs`: `f.seek(0, 2)`
then for each strip record `f.tell()` and `f.write(strip)`.  Returns the
new file contents and the recorded append offsets. -/
def append_strips (f : List Nat) (datas : List (List Nat)) : List Nat × List Nat :=
  datas.foldl (fun acc d => (acc.1 ++ d, acc.2 ++ [acc.1.length])) (f, [])

/-- The offsets recorded by the append loop, starting from a base offset. -/
def stripOffsetsFrom (base : Nat) : List (List Nat) → List Nat
  | [] => []
  | d :: ds => base :: stripOffsetsFrom (base + d.length) ds

theorem writeAt_length (f d : List Nat) (off : Nat) (h : off ≤ f.length) :
    (writeAt f off d).length = max f.length (off + d.length) := by
  simp only [writeAt, List.length_append, List.length_take, List.length_replicate,
    List.length_drop]
  omega

theorem writeAt_length_of_le (f d : List Nat) (off : Nat) (h : off + d.length ≤ f.length) :
    (writeAt f off d).length = f.length := by
  rw [writeAt_length f d off (by omega)]
  omega

theorem writeAt_getElem (f d : List Nat) (off j : Nat) (hoff : off ≤ f.length) :
    (writeAt f off d)[j]? =
      if j < off then f[j]?
      else if j < off + d.length then d[j - off]?
      else f[j]? := by
  have hrep : off - f.length = 0 := by omega
  have hA : (f.take off).length = off := by
    simp only [List.length_take]
    omega
  simp only [writeAt, hrep, List.replicate_zero, List.append_nil]
  by_cases h1 : j < off
  · rw [List.getElem?_append_left (by simp only [List.length_append, hA]; omega),
      List.getElem?_append_left (by omega : j < (f.take off).length),
      List.getElem?_take_of_lt h1, if_pos h1]
  · by_cases h2 : j < off + d.length
    · rw [List.getElem?_append_left (by simp only [List.length_append, hA]; omega),
        List.getElem?_append_right (by omega : (f.take off).length ≤ j), hA,
        if_neg h1, if_pos h2]
    · rw [List.getElem?_append_right (by simp only [List.length_append, hA]; omega),
        if_neg h1, if_neg h2]
      simp only [List.length_append, hA, List.getElem?_drop]
      congr 1
      omega

theorem writeAt_eof (f d : List Nat) : writeAt f f.length d = f ++ d := by
  simp [writeAt]

theorem writeAt_writeAt (f d1 d2 : List Nat) (off : Nat) (h : off ≤ f.length) :
    writeAt (writeAt f off d1) (off + d1.length) d2 = writeAt f off (d1 ++ d2) := by
  have h1 : off + d1.length ≤ (writeAt f off d1).length := by
    rw [writeAt_length f d1 off h]; omega
  apply List.ext_getElem?
  intro j
  rw [writeAt_getElem _ d2 _ j h1, writeAt_getElem f (d1 ++ d2) off j h,
    writeAt_getElem f d1 off j h, List.getElem?_append]
  simp only [List.length_append]
  split_ifs <;> first | rfl | omega | (congr 1; omega)

theorem writeSeq_eq (cs : List (List Nat)) (f : List Nat) (off : Nat) (h : off ≤ f.length) :
    writeSeq f off cs = writeAt f off cs.flatten := by
  induction cs generalizing f off with
  | nil =>
    have hrep : off - f.length = 0 := by omega
    simp [writeSeq, writeAt, hrep]
  | cons c cs ih =>
    have h1 : off + c.length ≤ (writeAt f off c).length := by
      rw [writeAt_length f c off h]; omega
    rw [writeSeq, ih _ _ h1, writeAt_writeAt f c cs.flatten off h]
    simp [List.flatten_cons]

theorem append_strips_loop (ds : List (List Nat)) (f : List Nat) (os : List Nat) :
    ds.foldl (fun acc d => (acc.1 ++ d, acc.2 ++ [acc.1.length])) (f, os) =
      (f ++ ds.flatten, os ++ stripOffsetsFrom f.length ds) := by
  induction ds generalizing f os with
  | nil => simp [stripOffsetsFrom]
  | cons d ds ih =>
    simp only [List.foldl_cons, ih, List.flatten_cons, stripOffsetsFrom,
      List.append_assoc, List.length_append, List.singleton_append]

theorem append_strips_eq (f : List Nat) (ds : List (List Nat)) :
    append_strips f ds = (f ++ ds.flatten, stripOffsetsFrom f.length ds) := by
  simpa using append_strips_loop ds f []

theorem stripOffsetsFrom_length (base : Nat) (ds : List (List Nat)) :
    (stripOffsetsFrom base ds).length = ds.length := by
  induction ds generalizing base with
  | nil => simp [stripOffsetsFrom]
  | cons d ds ih => simp [stripOffsetsFrom, ih]

theorem stripOffsetsFrom_mem_le (base : Nat) (ds : List (List Nat)) :
    ∀ x ∈ stripOffsetsFrom base ds, base ≤ x ∧ x ≤ base + (ds.map List.length).sum := by
  induction ds generalizing base with
  | nil => simp [stripOffsetsFrom]
  | cons d ds ih =>
    intro x hx
    simp only [stripOffsetsFrom, List.mem_cons] at hx
    rcases hx with rfl | hx
    · simp
    · have := ih (base + d.length) x hx
      simp only [List.map_cons, List.sum_cons]
      omega

/-!
## Integer serialization (`compression_utils.int_to_bytes` / `int_from_bytes`)

`int_to_bytes` models Python's `number.to_bytes(length, byteorder, signed=True)`,
which raises `OverflowError` when the number does not fit in `length` signed
bytes; the failure is an `Option.none`.  The total function `int_to_bytes_tc`
is the underlying two's-complement encoding on the valid range.
-/

/-- Little-endian two's-complement byte encoding of an integer. -/
def int_to_bytes_le (number : Int) (length : Nat) : List Nat :=
  (List.range length).map (fun i => ((number % ((2 : Int)) ^ (8 * length)).toNat / 2 ^ (8 * i)) % 256)

/-- Two's-complement byte encoding in the requested byte order. -/
def int_to_bytes_tc (number : Int) (length : Nat) (is_big_endian : Bool) : List Nat :=
  if is_big_endian then (int_to_bytes_le number length).reverse
  else int_to_bytes_le number length

/-- `compression_utils.int_to_bytes` with an explicit length: Python's
`int.to_bytes(length, byteorder, signed=True)`, `none` on `OverflowError`. -/
def int_to_bytes (number : Int) (length : Nat) (is_big_endian : Bool) : Option (List Nat) :=
  if -((2 : Int)) ^ (8 * length - 1) ≤ number ∧ number < ((2 : Int)) ^ (8 * length - 1) then
    some (int_to_bytes_tc number length is_big_endian)
  else none

/-- Value of a little-endian byte list. -/
def bytes_to_nat_le : List Nat → Nat
  | [] => 0
  | b :: bs => b + 256 * bytes_to_nat_le bs

/-- `compression_utils.int_from_bytes`: Python's
`int.from_bytes(bytes_data, byteorder, signed=True)`. -/
def int_from_bytes (bytes_data : List Nat) (is_big_endian : Bool) : Int :=
  let le := if is_big_endian then bytes_data.reverse else bytes_data
  let u := bytes_to_nat_le le
  if 2 * u < 2 ^ (8 * bytes_data.length) then (u : Int)
  else (u : Int) - ((2 : Int)) ^ (8 * bytes_data.length)

theorem int_to_bytes_le_four (n : Int) :
    int_to_bytes_le n 4 =
      [(n % 4294967296).toNat % 256,
       (n % 4294967296).toNat / 256 % 256,
       (n % 4294967296).toNat / 65536 % 256,
       (n % 4294967296).toNat / 16777216 % 256] := by
  simp only [int_to_bytes_le]
  norm_num [List.range_succ]

theorem int_to_bytes_tc_length (n : Int) (L : Nat) (e : Bool) :
    (int_to_bytes_tc n L e).length = L := by
  cases e <;> simp [int_to_bytes_tc, int_to_bytes_le]

theorem int_from_bytes_int_to_bytes_tc (n : Int) (e : Bool)
    (h1 : -(2147483648 : Int) ≤ n) (h2 : n < 2147483648) :
    int_from_bytes (int_to_bytes_tc n 4 e) e = n := by
  have hlen : (int_to_bytes_tc n 4 e).length = 4 := int_to_bytes_tc_length n 4 e
  have hle : (if e then (int_to_bytes_tc n 4 e).reverse else int_to_bytes_tc n 4 e) =
      int_to_bytes_le n 4 := by
    cases e <;> simp [int_to_bytes_tc]
  simp only [int_from_bytes, hle, hlen]
  rw [int_to_bytes_le_four]
  have hmod : (0 : Int) ≤ n % 4294967296 ∧ n % 4294967296 < 4294967296 := by
    constructor
    · exact Int.emod_nonneg n (by norm_num)
    · exact Int.emod_lt_of_pos n (by norm_num)
  simp only [bytes_to_nat_le]
  norm_num
  omega

/-- C10, serialization side: on the 4-byte signed range the encoding is
defined and decodes back to the original integer, for either endianness. -/
theorem int_to_bytes_int_from_bytes_roundtrip (n : Int) (e : Bool)
    (h1 : -(2147483648 : Int) ≤ n) (h2 : n < 2147483648) :
    (int_to_bytes n 4 e).map (fun b => int_from_bytes b e) = some n := by
  have hin : -((2 : Int)) ^ (8 * 4 - 1) ≤ n ∧ n < ((2 : Int)) ^ (8 * 4 - 1) := by
    norm_num
    omega
  simp only [int_to_bytes, if_pos hin, Option.map_some']
  exact congrArg some (int_from_bytes_int_to_bytes_tc n e h1 h2)

/-- C10: for every 4-byte-signed-representable integer and either endianness,
`int_from_bytes` inverts `int_to_bytes`; outside that range `int_to_bytes`
with `length = 4` fails (raises `OverflowError`) rather than truncating. -/
theorem c10_int_serialization_roundtrip (n : Int) (e : Bool) :
    (-(2147483648 : Int) ≤ n ∧ n < 2147483648 →
      (int_to_bytes n 4 e).map (fun b => int_from_bytes b e) = some n) ∧
    (n < -(2147483648 : Int) ∨ (2147483648 : Int) ≤ n →
      int_to_bytes n 4 e = none) := by
  constructor
  · intro h
    exact int_to_bytes_int_from_bytes_roundtrip n e h.1 h.2
  · intro h
    simp only [int_to_bytes]
    rw [if_neg]
    norm_num
    omega

/-- Witness for C10 at concrete inputs `n = -5` (in range) and
`n = 2^31` (out of range). -/
theorem c10_int_serialization_roundtrip_witness :
    ((-(2147483648 : Int) ≤ -5 ∧ (-5 : Int) < 2147483648) ∧
      (int_to_bytes (-5) 4 true).map (fun b => int_from_bytes b true) = some (-5)) ∧
    (((2147483648 : Int) < -2147483648 ∨ (2147483648 : Int) ≤ 2147483648) ∧
      int_to_bytes 2147483648 4 false = none) := by
  refine ⟨⟨by norm_num, (c10_int_serialization_roundtrip (-5) true).1 (by norm_num)⟩,
    ⟨by norm_num, (c10_int_serialization_roundtrip 2147483648 false).2 (by norm_num)⟩⟩

/-!
## Strip codec (`compression_utils.compression_image`)

The external collaborators (`imagecodecs` predictor codecs, `zlib.compress`,
`imagecodecs` LZW) are passed in as function parameters; the partitioning
logic is translated literally from the source.  `rows_per_strip = 0` raises
`ZeroDivisionError` in Python; the model is only used with `rows_per_strip > 0`.
-/

/-- `COMPRESSION.values()` from `compression_utils.py`: NONE = 1, LZW = 5,
ADOBE_DEFLATE = 8. -/
def COMPRESSION_values : List Nat := [1, 5, 8]

/-- `compression_utils.IMGTile`: an image strip with its index, its encoded
bytes and `count = len(data)`. -/
structure IMGTile where
  index : Nat
  data : List Nat
  count : Nat
  deriving Repr, DecidableEq

/-- An image raster: `H` rows, each a list of `W` pixels, each a list of `S`
sample bytes. -/
abbrev Raster := List (List (List Nat))

/-- `tile.reshape(size)`: the rows of a strip flattened to a 1-D byte
sequence in row-major order. -/
def flat_rows (rows : List (List (List Nat))) : List Nat :=
  (rows.map List.flatten).flatten

/-- The `match compression` step of `compression_image`: ADOBE_DEFLATE (8)
applies `zlib.compress`, LZW (5) applies `lzw_encode`, anything else passes
the bytes through. -/
def apply_codec (zlib_compress lzw_encode : List Nat → List Nat)
    (compression : Nat) (tile : List Nat) : List Nat :=
  if compression = 8 then zlib_compress tile
  else if compression = 5 then lzw_encode tile
  else tile

/-- `compression_utils.compression_image`: split an image into strips of
`rows_per_strip` rows (plus a shorter trailing strip for the remainder),
flatten and encode each strip, and return the indexed tiles. -/
def compression_image (pred : Raster → Raster)
    (zlib_compress lzw_encode : List Nat → List Nat)
    (img : Raster) (rows_per_strip : Nat) (predictor : Nat) (compression : Nat) :
    List IMGTile :=
  let img := if predictor ≠ 1 then pred img else img
  let height := img.length
  let strip_num := height / rows_per_strip
  let full_row_strip_num := strip_num
  let remainder := height % rows_per_strip
  let strip_num := if remainder > 0 then strip_num + 1 else strip_num
  (List.range strip_num).map (fun i =>
    let start := i * rows_per_strip
    let tile :=
      if i = full_row_strip_num then (img.drop start).take remainder
      else (img.drop start).take rows_per_strip
    let out := apply_codec zlib_compress lzw_encode compression (flat_rows tile)
    ⟨i, out, out.length⟩)

theorem flatten_range_take {α : Type} (l : List α) (r n : Nat) :
    ((List.range n).map (fun i => (l.drop (i * r)).take r)).flatten = l.take (n * r) := by
  induction n with
  | zero => simp
  | succ n ih =>
    rw [List.range_succ, List.map_append, List.flatten_append, ih]
    simp only [List.map_cons, List.map_nil, List.flatten_cons, List.flatten_nil,
      List.append_nil, Nat.succ_mul]
    rw [List.take_add]

theorem compression_image_length (pred : Raster → Raster)
    (z w : List Nat → List Nat) (img : Raster) (r c : Nat) :
    (compression_image pred z w img r 1 c).length =
      img.length / r + (if img.length % r = 0 then 0 else 1) := by
  simp only [compression_image, ne_eq, not_true_eq_false, if_false, ite_not,
    List.length_map, List.length_range]
  split_ifs <;> omega

theorem compression_image_getElem (pred : Raster → Raster)
    (z w : List Nat → List Nat) (img : Raster) (r c i : Nat) (hr : 0 < r)
    (hi : i < (compression_image pred z w img r 1 c).length) :
    (compression_image pred z w img r 1 c).get ⟨i, hi⟩ =
      ⟨i,
       apply_codec z w c (flat_rows ((img.drop (i * r)).take
         (if i < img.length / r then r else img.length % r))),
       (apply_codec z w c (flat_rows ((img.drop (i * r)).take
         (if i < img.length / r then r else img.length % r)))).length⟩ := by
  have hlen := compression_image_length pred z w img r c
  have hib : i < img.length / r + (if img.length % r = 0 then 0 else 1) := hlen ▸ hi
  have hub : i ≤ img.length / r := by
    split_ifs at hib <;> omega
  have hkey : (if i = img.length / r then (img.drop (i * r)).take (img.length % r)
      else (img.drop (i * r)).take r) =
      (img.drop (i * r)).take (if i < img.length / r then r else img.length % r) := by
    split_ifs with h1 h2
    · omega
    · rfl
    · rfl
    · omega
  simp only [List.get_eq_getElem, compression_image, ne_eq, not_true_eq_false, if_false,
    ite_not, List.getElem_map, List.getElem_range, hkey]

/-- C8: for every image and `rows_per_strip = r > 0` (with the predictor
disabled, as in every call site that the claim covers), `compression_image`
emits exactly `⌊H/r⌋` full strips of `r` rows each, plus one trailing strip
of `H mod r` rows iff `H mod r > 0`; the strips are indexed consecutively
from 0 and partition the image rows in top-to-bottom order. -/
theorem c8_strip_partitioning (pred : Raster → Raster)
    (z w : List Nat → List Nat) (img : Raster) (r c : Nat) (hr : 0 < r) :
    (compression_image pred z w img r 1 c).length =
      img.length / r + (if img.length % r = 0 then 0 else 1) ∧
    (∀ i (hi : i < (compression_image pred z w img r 1 c).length),
      ((compression_image pred z w img r 1 c).get ⟨i, hi⟩).index = i) ∧
    (∀ i (hi : i < (compression_image pred z w img r 1 c).length),
      ((compression_image pred z w img r 1 c).get ⟨i, hi⟩).data =
        apply_codec z w c (flat_rows ((img.drop (i * r)).take
          (if i < img.length / r then r else img.length % r)))) ∧
    (∀ i (hi : i < (compression_image pred z w img r 1 c).length),
      ((compression_image pred z w img r 1 c).get ⟨i, hi⟩).count =
        ((compression_image pred z w img r 1 c).get ⟨i, hi⟩).data.length) ∧
    (∀ i, i < img.length / r → ((img.drop (i * r)).take r).length = r) ∧
    (img.length % r ≠ 0 →
      ((img.drop (img.length / r * r)).take (img.length % r)).length = img.length % r) ∧
    ((List.range (compression_image pred z w img r 1 c).length).map
        (fun i => (img.drop (i * r)).take
          (if i < img.length / r then r else img.length % r))).flatten = img := by
  have hfull : ∀ i, i < img.length / r → i * r + r ≤ img.length := by
    intro i h
    calc i * r + r = (i + 1) * r := by rw [Nat.succ_mul]
    _ ≤ img.length / r * r := Nat.mul_le_mul_right r (by omega)
    _ ≤ img.length := Nat.div_mul_le_self _ _
  have hdm : img.length / r * r + img.length % r = img.length := by
    rw [Nat.mul_comm]
    exact Nat.div_add_mod img.length r
  refine ⟨compression_image_length pred z w img r c, ?_, ?_, ?_, ?_, ?_, ?_⟩
  · intro i hi
    rw [compression_image_getElem pred z w img r c i hr hi]
  · intro i hi
    rw [compression_image_getElem pred z w img r c i hr hi]
  · intro i hi
    rw [compression_image_getElem pred z w img r c i hr hi]
  · intro i h
    have := hfull i h
    simp only [List.length_take, List.length_drop]
    omega
  · intro h
    simp only [List.length_take, List.length_drop]
    omega
  · rw [compression_image_length pred z w img r c]
    by_cases hrem : img.length % r = 0
    · rw [if_pos hrem]
      have hcov : ∀ i, i < img.length / r →
          (fun i => (img.drop (i * r)).take
            (if i < img.length / r then r else img.length % r)) i =
          (fun i => (img.drop (i * r)).take r) i := by
        intro i hi
        simp only [if_pos hi]
      rw [Nat.add_zero, List.map_congr_left (fun i hi => hcov i (List.mem_range.mp hi)),
        flatten_range_take]
      have : img.length / r * r = img.length := by omega
      rw [this, List.take_length]
    · rw [if_neg hrem, List.range_succ, List.map_append, List.flatten_append]
      have hcov : ∀ i ∈ List.range (img.length / r),
          (fun i => (img.drop (i * r)).take
            (if i < img.length / r then r else img.length % r)) i =
          (fun i => (img.drop (i * r)).take r) i := by
        intro i hi
        simp only [if_pos (List.mem_range.mp hi)]
      rw [List.map_congr_left hcov, flatten_range_take]
      simp only [List.map_cons, List.map_nil, List.flatten_cons, List.flatten_nil,
        List.append_nil]
      have htr : (img.drop (img.length / r * r)).take (img.length % r) =
          img.drop (img.length / r * r) :=
        List.take_of_length_le (by simp only [List.length_drop]; omega)
      rw [if_neg (lt_irrefl (img.length / r)), htr]
      exact List.take_append_drop _ _

/-- Witness for C8: a 3-row, 1-column, 1-sample image with 2 rows per
strip yields one full strip and one trailing strip. -/
theorem c8_strip_partitioning_witness :
    0 < 2 ∧
    (compression_image id id id [[[10]], [[20]], [[30]]] 2 1 1).length =
      3 / 2 + (if 3 % 2 = 0 then 0 else 1) := by
  exact ⟨by norm_num, (c8_strip_partitioning id id id [[[10]], [[20]], [[30]]] 2 1 (by norm_num)).1⟩

/-!
## TIFF rewriter (`pseudonymisation_utils.replace_label_with_pseudonym_svs`)
-/

/-- The fields of a label IFD consumed by the rewriter, as exposed by
`tifffile.TiffPage`: compression (tag 259's parsed value), rows per strip,
predictor, strip byte counts (tag 279) and strip offsets (tag 273), and the
file positions of the value slots of tags 259, 279 and 273
(`ifd.tags.get(tag).valueoffset`). -/
structure TiffIFD where
  compression : Nat
  rowsperstrip : Nat
  predictor : Nat
  databytecounts : List Nat
  dataoffsets : List Nat
  tag259_valueoffset : Nat
  tag279_valueoffset : Nat
  tag273_valueoffset : Nat
  deriving Repr, DecidableEq

/-- `f.read(2) == b"MM"`: byte-order marker test (`MM` = big-endian,
anything else, in particular `II`, is treated as little-endian). -/
def is_big_endian_file (f : List Nat) : Bool := decide (f.take 2 = [77, 77])

/-- The local variable `compression` of `replace_label_with_pseudonym_svs`:
if the label's compression is not supported, Adobe Deflate (8) is used
instead. -/
def rewriter_compression (ifd : TiffIFD) : Nat :=
  if ifd.compression ∈ COMPRESSION_values then ifd.compression else 8

/-- The local variable `img_data` of `replace_label_with_pseudonym_svs`:
the pseudonym label encoded into strips with the effective compression. -/
def rewriter_tiles (pred : Raster → Raster) (zlib_compress lzw_encode : List Nat → List Nat)
    (pseudo_label : Raster) (ifd : TiffIFD) : List IMGTile :=
  compression_image pred zlib_compress lzw_encode pseudo_label
    ifd.rowsperstrip ifd.predictor (rewriter_compression ifd)

/-- `pseudonymisation_utils.replace_label_with_pseudonym_svs` on the byte
model.  A `none` result models the exception path (the Python function
prints the error and returns `False`): an empty strip-offset list raises
`IndexError` at `ifd.dataoffsets[0]`, an out-of-range integer raises
`OverflowError` inside `int_to_bytes`. -/
def replace_label_with_pseudonym_svs (pred : Raster → Raster)
    (zlib_compress lzw_encode : List Nat → List Nat)
    (file : List Nat) (pseudo_label : Raster) (ifd : TiffIFD) :
    Option (List Nat) :=
  if ifd.dataoffsets = [] then none
  else
    let big_endian := is_big_endian_file file
    let compression := rewriter_compression ifd
    let img_data := rewriter_tiles pred zlib_compress lzw_encode pseudo_label ifd
    let old_img_data_byte_count := ifd.databytecounts.sum
    let old_img_data_first_offset := ifd.dataoffsets.headD 0
    let f1 := writeAt file old_img_data_first_offset
      (List.replicate old_img_data_byte_count 0)
    let step259 : Option (List Nat) :=
      if compression ≠ ifd.compression then
        (int_to_bytes (compression : Int) 4 big_endian).map
          (fun b => writeAt f1 ifd.tag259_valueoffset b)
      else some f1
    step259.bind (fun f2 =>
      (((img_data.map (fun t => t.count)).mapM
          (fun c : Nat => int_to_bytes (c : Int) 4 big_endian)).bind (fun countBytes =>
        let f3 := writeSeq f2 ifd.tag279_valueoffset countBytes
        let ap := append_strips f3 (img_data.map (fun t => t.data))
        (ap.2.mapM (fun o : Nat => int_to_bytes (o : Int) 4 big_endian)).bind
          (fun offBytes => some (writeSeq ap.1 ifd.tag273_valueoffset offBytes)))))

theorem int_to_bytes_eq_some (n : Int) (e : Bool)
    (h1 : -(2147483648 : Int) ≤ n) (h2 : n < 2147483648) :
    int_to_bytes n 4 e = some (int_to_bytes_tc n 4 e) := by
  have hcond : -((2 : Int)) ^ (8 * 4 - 1) ≤ n ∧ n < ((2 : Int)) ^ (8 * 4 - 1) := by
    norm_num
    omega
  simp only [int_to_bytes, if_pos hcond]

theorem mapM_int_to_bytes (l : List Nat) (e : Bool)
    (h : ∀ c ∈ l, c < 2147483648) :
    l.mapM (fun c : Nat => int_to_bytes (c : Int) 4 e) =
      some (l.map (fun c : Nat => int_to_bytes_tc (c : Int) 4 e)) := by
  induction l with
  | nil => rfl
  | cons c cs ih =>
    have hcs := h c (by simp)
    have hc : int_to_bytes (c : Int) 4 e = some (int_to_bytes_tc (c : Int) 4 e) :=
      int_to_bytes_eq_some _ e (by omega) (by omega)
    rw [List.mapM_cons, hc, ih (fun x hx => h x (by simp [hx]))]
    rfl

theorem flatten_map_tc_length (l : List Nat) (e : Bool) :
    ((l.map (fun c : Nat => int_to_bytes_tc (c : Int) 4 e)).flatten).length = 4 * l.length := by
  induction l with
  | nil => simp
  | cons c cs ih =>
    simp only [List.map_cons, List.flatten_cons, List.length_append, ih,
      int_to_bytes_tc_length, List.length_cons]
    omega

theorem flatten_map_tc_getElem (l : List Nat) (e : Bool) (k b : Nat)
    (hk : k < l.length) (hb : b < 4) :
    ((l.map (fun c : Nat => int_to_bytes_tc (c : Int) 4 e)).flatten)[4 * k + b]? =
      (int_to_bytes_tc ((l.get ⟨k, hk⟩ : Nat) : Int) 4 e)[b]? := by
  induction l generalizing k with
  | nil => simp at hk
  | cons c cs ih =>
    cases k with
    | zero =>
      simp only [List.map_cons, List.flatten_cons, Nat.mul_zero, Nat.zero_add, List.get]
      rw [List.getElem?_append_left (by rw [int_to_bytes_tc_length]; omega)]
    | succ k =>
      have hk' : k < cs.length := by simpa using hk
      simp only [List.map_cons, List.flatten_cons, List.get]
      rw [List.getElem?_append_right (by rw [int_to_bytes_tc_length]; omega),
        int_to_bytes_tc_length]
      have harith : 4 * (k + 1) + b - 4 = 4 * k + b := by omega
      rw [harith]
      exact ih k hk'

theorem flatten_getElem_partial {α : Type} (l : List (List α)) (k b : Nat)
    (hk : k < l.length) (hb : b < (l.get ⟨k, hk⟩).length) :
    l.flatten[((l.take k).map List.length).sum + b]? = (l.get ⟨k, hk⟩)[b]? := by
  induction l generalizing k with
  | nil => simp at hk
  | cons x xs ih =>
    cases k with
    | zero =>
      simp only [List.take_zero, List.map_nil, List.sum_nil, Nat.zero_add,
        List.flatten_cons, List.get] at hb ⊢
      rw [List.getElem?_append_left hb]
    | succ k =>
      have hk' : k < xs.length := by simpa using hk
      simp only [List.take_succ_cons, List.map_cons, List.sum_cons,
        List.flatten_cons, List.get] at hb ⊢
      rw [List.getElem?_append_right (by omega)]
      have harith : x.length + (((xs.take k).map List.length).sum + b) - x.length =
          ((xs.take k).map List.length).sum + b := by omega
      rw [Nat.add_assoc, harith]
      exact ih k hk' hb

theorem stripOffsetsFrom_getElem (base : Nat) (ds : List (List Nat)) (k : Nat)
    (hk : k < ds.length) :
    (stripOffsetsFrom base ds)[k]? = some (base + ((ds.take k).map List.length).sum) := by
  induction ds generalizing base k with
  | nil => simp at hk
  | cons d ds ih =>
    cases k with
    | zero => simp [stripOffsetsFrom]
    | succ k =>
      have hk' : k < ds.length := by simpa using hk
      simp only [stripOffsetsFrom, List.getElem?_cons_succ, List.take_succ_cons,
        List.map_cons, List.sum_cons, ih (base + d.length) k hk']
      congr 1
      omega

theorem getElem?_congr_idx {a : Type} (l : List a) {i j : Nat} (h : i = j) :
    l[i]? = l[j]? := by
  rw [h]

/-- Half-open byte regions `[a, a + la)` and `[b, b + lb)` do not overlap. -/
def regionsDisjoint (a la b lb : Nat) : Prop := a + la ≤ b ∨ b + lb ≤ a

/-- Well-formedness of the label IFD against the file, for the rewriter:
the strip region and the three tag value slots lie inside the file and are
pairwise disjoint; `n` is the number of new strips. -/
def ReplaceWF (file : List Nat) (ifd : TiffIFD) (n : Nat) : Prop :=
  ifd.dataoffsets ≠ [] ∧
  ifd.dataoffsets.headD 0 + ifd.databytecounts.sum ≤ file.length ∧
  ifd.tag259_valueoffset + 4 ≤ file.length ∧
  ifd.tag279_valueoffset + 4 * n ≤ file.length ∧
  ifd.tag273_valueoffset + 4 * n ≤ file.length ∧
  regionsDisjoint (ifd.dataoffsets.headD 0) ifd.databytecounts.sum
    ifd.tag259_valueoffset 4 ∧
  regionsDisjoint (ifd.dataoffsets.headD 0) ifd.databytecounts.sum
    ifd.tag279_valueoffset (4 * n) ∧
  regionsDisjoint (ifd.dataoffsets.headD 0) ifd.databytecounts.sum
    ifd.tag273_valueoffset (4 * n) ∧
  regionsDisjoint ifd.tag259_valueoffset 4 ifd.tag279_valueoffset (4 * n) ∧
  regionsDisjoint ifd.tag259_valueoffset 4 ifd.tag273_valueoffset (4 * n) ∧
  regionsDisjoint ifd.tag279_valueoffset (4 * n) ifd.tag273_valueoffset (4 * n)

instance (file : List Nat) (ifd : TiffIFD) (n : Nat) : Decidable (ReplaceWF file ifd n) := by
  unfold ReplaceWF regionsDisjoint
  infer_instance

theorem rewriter_tiles_count_eq (pred : Raster → Raster)
    (z w : List Nat → List Nat) (pl : Raster) (ifd : TiffIFD) :
    ∀ t ∈ rewriter_tiles pred z w pl ifd, t.count = t.data.length := by
  intro t ht
  simp only [rewriter_tiles, compression_image, List.mem_map, List.mem_range] at ht
  obtain ⟨i, _, rfl⟩ := ht
  rfl

theorem replace_label_eq (pred : Raster → Raster) (z w : List Nat → List Nat)
    (file : List Nat) (pl : Raster) (ifd : TiffIFD)
    (hne : ifd.dataoffsets ≠ [])
    (hS : ifd.dataoffsets.headD 0 + ifd.databytecounts.sum ≤ file.length)
    (h259 : ifd.tag259_valueoffset + 4 ≤ file.length)
    (h279 : ifd.tag279_valueoffset + 4 * (rewriter_tiles pred z w pl ifd).length ≤
      file.length)
    (h273 : ifd.tag273_valueoffset + 4 * (rewriter_tiles pred z w pl ifd).length ≤
      file.length)
    (hc : ∀ c ∈ (rewriter_tiles pred z w pl ifd).map (fun t => t.count), c < 2147483648)
    (ho : ∀ o ∈ stripOffsetsFrom file.length
        ((rewriter_tiles pred z w pl ifd).map (fun t => t.data)), o < 2147483648) :
    replace_label_with_pseudonym_svs pred z w file pl ifd =
      some (writeAt
        (writeAt
          (if rewriter_compression ifd ≠ ifd.compression then
            writeAt
              (writeAt file (ifd.dataoffsets.headD 0)
                (List.replicate ifd.databytecounts.sum 0))
              ifd.tag259_valueoffset
              (int_to_bytes_tc ((rewriter_compression ifd : Nat) : Int) 4
                (is_big_endian_file file))
          else
            writeAt file (ifd.dataoffsets.headD 0)
              (List.replicate ifd.databytecounts.sum 0))
          ifd.tag279_valueoffset
          ((((rewriter_tiles pred z w pl ifd).map (fun t => t.count)).map
            (fun c : Nat => int_to_bytes_tc (c : Int) 4 (is_big_endian_file file))).flatten)
        ++ ((rewriter_tiles pred z w pl ifd).map (fun t => t.data)).flatten)
        ifd.tag273_valueoffset
        (((stripOffsetsFrom file.length
            ((rewriter_tiles pred z w pl ifd).map (fun t => t.data))).map
          (fun o : Nat => int_to_bytes_tc (o : Int) 4 (is_big_endian_file file))).flatten)) := by
  have hlen1 : (writeAt file (ifd.dataoffsets.headD 0)
      (List.replicate ifd.databytecounts.sum 0)).length = file.length := by
    apply writeAt_length_of_le
    simpa using hS
  have hcntlen : ((((rewriter_tiles pred z w pl ifd).map (fun t => t.count)).map
      (fun c : Nat => int_to_bytes_tc (c : Int) 4 (is_big_endian_file file))).flatten).length =
      4 * (rewriter_tiles pred z w pl ifd).length := by
    rw [flatten_map_tc_length, List.length_map]
  simp only [replace_label_with_pseudonym_svs, if_neg hne, mapM_int_to_bytes _ _ hc]
  by_cases hch : rewriter_compression ifd ≠ ifd.compression
  · have heff : rewriter_compression ifd = 8 := by
      by_cases hmem : ifd.compression ∈ COMPRESSION_values
      · exact absurd (by simp [rewriter_compression, hmem]) hch
      · simp [rewriter_compression, hmem]
    rw [if_pos hch, if_pos hch, heff,
      int_to_bytes_eq_some ((8 : Nat) : Int) _ (by norm_num) (by norm_num)]
    simp only [Option.map_some', Option.some_bind]
    have hlen2 : (writeAt (writeAt file (ifd.dataoffsets.headD 0)
        (List.replicate ifd.databytecounts.sum 0)) ifd.tag259_valueoffset
        (int_to_bytes_tc ((8 : Nat) : Int) 4 (is_big_endian_file file))).length =
        file.length := by
      rw [writeAt_length_of_le _ _ _ (by rw [hlen1, int_to_bytes_tc_length]; omega)]
      exact hlen1
    rw [writeSeq_eq _ _ _ (by rw [hlen2]; omega)]
    have hlen3 : (writeAt (writeAt (writeAt file (ifd.dataoffsets.headD 0)
        (List.replicate ifd.databytecounts.sum 0)) ifd.tag259_valueoffset
        (int_to_bytes_tc ((8 : Nat) : Int) 4 (is_big_endian_file file)))
        ifd.tag279_valueoffset
        ((((rewriter_tiles pred z w pl ifd).map (fun t => t.count)).map
          (fun c : Nat => int_to_bytes_tc (c : Int) 4 (is_big_endian_file file))).flatten)).length =
        file.length := by
      rw [writeAt_length_of_le _ _ _ (by rw [hlen2, hcntlen]; omega)]
      exact hlen2
    simp only [append_strips_eq, hlen3, mapM_int_to_bytes _ _ ho, Option.some_bind]
    rw [writeSeq_eq _ _ _ (by
      rw [List.length_append, hlen3]
      omega)]
  · rw [if_neg hch, if_neg hch]
    simp only [Option.some_bind]
    rw [writeSeq_eq _ _ _ (by rw [hlen1]; omega)]
    have hlen3 : (writeAt (writeAt file (ifd.dataoffsets.headD 0)
        (List.replicate ifd.databytecounts.sum 0)) ifd.tag279_valueoffset
        ((((rewriter_tiles pred z w pl ifd).map (fun t => t.count)).map
          (fun c : Nat => int_to_bytes_tc (c : Int) 4 (is_big_endian_file file))).flatten)).length =
        file.length := by
      rw [writeAt_length_of_le _ _ _ (by rw [hlen1, hcntlen]; omega)]
      exact hlen1
    simp only [append_strips_eq, hlen3, mapM_int_to_bytes _ _ ho, Option.some_bind]
    rw [writeSeq_eq _ _ _ (by
      rw [List.length_append, hlen3]
      omega)]

set_option maxHeartbeats 1600000 in
theorem rewrite_chain_getElem (file cF dF oF e8 : List Nat)
    (off0 S t259 t279 t273 : Nat) (changed : Prop) [Decidable changed]
    (hS : off0 + S ≤ file.length) (h259 : t259 + 4 ≤ file.length)
    (h279 : t279 + cF.length ≤ file.length) (h273 : t273 + oF.length ≤ file.length)
    (he8 : e8.length = 4)
    (j : Nat) :
    (writeAt
      ((writeAt
        (if changed then
          writeAt (writeAt file off0 (List.replicate S 0)) t259 e8
        else writeAt file off0 (List.replicate S 0))
        t279 cF) ++ dF)
      t273 oF)[j]? =
      if t273 ≤ j ∧ j < t273 + oF.length then oF[j - t273]?
      else if file.length ≤ j then dF[j - file.length]?
      else if t279 ≤ j ∧ j < t279 + cF.length then cF[j - t279]?
      else if changed ∧ t259 ≤ j ∧ j < t259 + 4 then e8[j - t259]?
      else if off0 ≤ j ∧ j < off0 + S then some 0
      else file[j]? := by
  have hlen1 : (writeAt file off0 (List.replicate S 0)).length = file.length := by
    apply writeAt_length_of_le
    simpa using hS
  have hb1 : ∀ i, (writeAt file off0 (List.replicate S 0))[i]? =
      if off0 ≤ i ∧ i < off0 + S then some 0 else file[i]? := by
    intro i
    rw [writeAt_getElem _ _ _ i (by omega), List.length_replicate]
    split_ifs <;>
      first
        | rfl
        | omega
        | (rw [List.getElem?_replicate, if_pos (by omega)])
        | (exfalso; omega)
  by_cases hch : changed
  · simp only [eq_true hch, if_true, true_and]
    have hlen2 : (writeAt (writeAt file off0 (List.replicate S 0)) t259 e8).length =
        file.length := by
      rw [writeAt_length_of_le _ _ _ (by rw [hlen1, he8]; omega)]
      exact hlen1
    have hb2 : ∀ i, (writeAt (writeAt file off0 (List.replicate S 0)) t259 e8)[i]? =
        if t259 ≤ i ∧ i < t259 + 4 then e8[i - t259]?
        else if off0 ≤ i ∧ i < off0 + S then some 0
        else file[i]? := by
      intro i
      rw [writeAt_getElem _ _ _ i (by rw [hlen1]; omega), he8]
      simp only [hb1]
      split_ifs <;> first | rfl | omega | (exfalso; omega)
    have hlen3 : (writeAt (writeAt (writeAt file off0 (List.replicate S 0)) t259 e8)
        t279 cF).length = file.length := by
      rw [writeAt_length_of_le _ _ _ (by rw [hlen2]; omega)]
      exact hlen2
    have hb3 : ∀ i, (writeAt (writeAt (writeAt file off0 (List.replicate S 0)) t259 e8)
        t279 cF)[i]? =
        if t279 ≤ i ∧ i < t279 + cF.length then cF[i - t279]?
        else if t259 ≤ i ∧ i < t259 + 4 then e8[i - t259]?
        else if off0 ≤ i ∧ i < off0 + S then some 0
        else file[i]? := by
      intro i
      rw [writeAt_getElem _ _ _ i (by rw [hlen2]; omega)]
      simp only [hb2]
      split_ifs <;> first | rfl | omega | (exfalso; omega)
    have hb4 : ∀ i, ((writeAt (writeAt (writeAt file off0 (List.replicate S 0)) t259 e8)
        t279 cF) ++ dF)[i]? =
        if i < file.length then
          (writeAt (writeAt (writeAt file off0 (List.replicate S 0)) t259 e8) t279 cF)[i]?
        else dF[i - file.length]? := by
      intro i
      rw [List.getElem?_append, hlen3]
    have hlen4 : ((writeAt (writeAt (writeAt file off0 (List.replicate S 0)) t259 e8)
        t279 cF) ++ dF).length = file.length + dF.length := by
      rw [List.length_append, hlen3]
    rw [writeAt_getElem _ _ _ j (by rw [hlen4]; omega)]
    simp only [hb4, hb3]
    split_ifs <;> first | rfl | omega | (exfalso; omega)
  · simp only [eq_false hch, if_false, false_and]
    have hlen3 : (writeAt (writeAt file off0 (List.replicate S 0)) t279 cF).length =
        file.length := by
      rw [writeAt_length_of_le _ _ _ (by rw [hlen1]; omega)]
      exact hlen1
    have hb3 : ∀ i, (writeAt (writeAt file off0 (List.replicate S 0)) t279 cF)[i]? =
        if t279 ≤ i ∧ i < t279 + cF.length then cF[i - t279]?
        else if off0 ≤ i ∧ i < off0 + S then some 0
        else file[i]? := by
      intro i
      rw [writeAt_getElem _ _ _ i (by rw [hlen1]; omega)]
      simp only [hb1]
      split_ifs <;> first | rfl | omega | (exfalso; omega)
    have hb4 : ∀ i, ((writeAt (writeAt file off0 (List.replicate S 0)) t279 cF) ++ dF)[i]? =
        if i < file.length then
          (writeAt (writeAt file off0 (List.replicate S 0)) t279 cF)[i]?
        else dF[i - file.length]? := by
      intro i
      rw [List.getElem?_append, hlen3]
    have hlen4 : ((writeAt (writeAt file off0 (List.replicate S 0)) t279 cF) ++ dF).length =
        file.length + dF.length := by
      rw [List.length_append, hlen3]
    rw [writeAt_getElem _ _ _ j (by rw [hlen4]; omega)]
    simp only [hb4, hb3]
    split_ifs <;> first | rfl | omega | (exfalso; omega)

/-- C2: for every label IFD satisfying the structural well-formedness of a
classic TIFF (strip region and tag value slots inside the file, pairwise
disjoint) and whose rewritten file stays below the 4-byte signed offset
limit, `replace_label_with_pseudonym_svs` (1) overwrites the old strip
region with `Σ old_byte_counts` zero bytes starting at the first old strip
offset, (2) appends each new strip at end-of-file at its recorded append
offset, (3) writes the new byte counts into tag 279's value slot and (4)
the recorded append offsets into tag 273's value slot, as 4-byte integers
in the endianness declared by the `II`/`MM` header marker, and (5)/(6)
rewrites tag 259 if and only if the compression changed. -/
theorem c2_replace_strips_algorithm (pred : Raster → Raster) (z w : List Nat → List Nat)
    (file : List Nat) (pl : Raster) (ifd : TiffIFD)
    (hWF : ReplaceWF file ifd (rewriter_tiles pred z w pl ifd).length)
    (hbound : file.length +
      (((rewriter_tiles pred z w pl ifd).map (fun t => t.data)).map List.length).sum <
      2147483648) :
    ∃ R, replace_label_with_pseudonym_svs pred z w file pl ifd = some R ∧
      (∀ j, j < ifd.databytecounts.sum →
        R[ifd.dataoffsets.headD 0 + j]? = some 0) ∧
      (∀ k (hk : k < (rewriter_tiles pred z w pl ifd).length) (b : Nat),
        b < ((rewriter_tiles pred z w pl ifd).get ⟨k, hk⟩).data.length →
        R[file.length +
          ((((rewriter_tiles pred z w pl ifd).map (fun t => t.data)).take k).map
            List.length).sum + b]? =
          ((rewriter_tiles pred z w pl ifd).get ⟨k, hk⟩).data[b]?) ∧
      (∀ k (hk : k < (rewriter_tiles pred z w pl ifd).length) (b : Nat), b < 4 →
        R[ifd.tag279_valueoffset + (4 * k + b)]? =
          (int_to_bytes_tc (((rewriter_tiles pred z w pl ifd).get ⟨k, hk⟩).count : Int) 4
            (is_big_endian_file file))[b]?) ∧
      (∀ k (hk : k < (rewriter_tiles pred z w pl ifd).length) (b : Nat), b < 4 →
        R[ifd.tag273_valueoffset + (4 * k + b)]? =
          (int_to_bytes_tc ((file.length +
              ((((rewriter_tiles pred z w pl ifd).map (fun t => t.data)).take k).map
                List.length).sum : Nat) : Int) 4
            (is_big_endian_file file))[b]?) ∧
      (ifd.compression ∉ COMPRESSION_values →
        ∀ b, b < 4 →
          R[ifd.tag259_valueoffset + b]? =
            (int_to_bytes_tc ((8 : Nat) : Int) 4 (is_big_endian_file file))[b]?) ∧
      (ifd.compression ∈ COMPRESSION_values →
        ∀ b, b < 4 →
          R[ifd.tag259_valueoffset + b]? = file[ifd.tag259_valueoffset + b]?) := by
  obtain ⟨hne, hS, h259, h279, h273, dj1, dj2, dj3, dj4, dj5, dj6⟩ := hWF
  simp only [regionsDisjoint] at dj1 dj2 dj3 dj4 dj5 dj6
  have hT : ∀ c ∈ (rewriter_tiles pred z w pl ifd).map (fun t => t.count),
      c < 2147483648 := by
    intro c hcmem
    simp only [List.mem_map] at hcmem
    obtain ⟨t, ht, rfl⟩ := hcmem
    have h1 : t.count = t.data.length := rewriter_tiles_count_eq pred z w pl ifd t ht
    have h2 : t.data.length ≤
        (((rewriter_tiles pred z w pl ifd).map (fun t => t.data)).map List.length).sum := by
      apply List.single_le_sum (fun x _ => Nat.zero_le x)
      simp only [List.map_map, List.mem_map]
      exact ⟨t, ht, rfl⟩
    omega
  have hO : ∀ o ∈ stripOffsetsFrom file.length
      ((rewriter_tiles pred z w pl ifd).map (fun t => t.data)), o < 2147483648 := by
    intro o homem
    have := stripOffsetsFrom_mem_le file.length
      ((rewriter_tiles pred z w pl ifd).map (fun t => t.data)) o homem
    omega
  have hres := replace_label_eq pred z w file pl ifd hne hS h259 h279 h273 hT hO
  have hcflen : ((((rewriter_tiles pred z w pl ifd).map (fun t => t.count)).map
      (fun c : Nat => int_to_bytes_tc (c : Int) 4 (is_big_endian_file file))).flatten).length =
      4 * (rewriter_tiles pred z w pl ifd).length := by
    rw [flatten_map_tc_length, List.length_map]
  have hoflen : (((stripOffsetsFrom file.length
      ((rewriter_tiles pred z w pl ifd).map (fun t => t.data))).map
      (fun o : Nat => int_to_bytes_tc (o : Int) 4 (is_big_endian_file file))).flatten).length =
      4 * (rewriter_tiles pred z w pl ifd).length := by
    rw [flatten_map_tc_length, stripOffsetsFrom_length, List.length_map]
  have hbyte := fun j => rewrite_chain_getElem file
    ((((rewriter_tiles pred z w pl ifd).map (fun t => t.count)).map
      (fun c : Nat => int_to_bytes_tc (c : Int) 4 (is_big_endian_file file))).flatten)
    (((rewriter_tiles pred z w pl ifd).map (fun t => t.data)).flatten)
    (((stripOffsetsFrom file.length
        ((rewriter_tiles pred z w pl ifd).map (fun t => t.data))).map
      (fun o : Nat => int_to_bytes_tc (o : Int) 4 (is_big_endian_file file))).flatten)
    (int_to_bytes_tc ((rewriter_compression ifd : Nat) : Int) 4 (is_big_endian_file file))
    (ifd.dataoffsets.headD 0) ifd.databytecounts.sum
    ifd.tag259_valueoffset ifd.tag279_valueoffset ifd.tag273_valueoffset
    (rewriter_compression ifd ≠ ifd.compression)
    hS h259 (by rw [hcflen]; exact h279) (by rw [hoflen]; exact h273)
    (int_to_bytes_tc_length _ _ _) j
  refine ⟨_, hres, ?_, ?_, ?_, ?_, ?_, ?_⟩
  · intro j hj
    rw [hbyte (ifd.dataoffsets.headD 0 + j), if_neg (by omega), if_neg (by omega),
      if_neg (by omega), if_neg (by omega), if_pos (by omega)]
  · intro k hk b hb
    have hkd : k < ((rewriter_tiles pred z w pl ifd).map (fun t => t.data)).length := by
      rw [List.length_map]; exact hk
    have hget : ((rewriter_tiles pred z w pl ifd).map (fun t => t.data)).get ⟨k, hkd⟩ =
        ((rewriter_tiles pred z w pl ifd).get ⟨k, hk⟩).data := by
      simp [List.get_eq_getElem, List.getElem_map]
    rw [hbyte _, if_neg (by omega), if_pos (by omega)]
    have harith : file.length +
        ((((rewriter_tiles pred z w pl ifd).map (fun t => t.data)).take k).map
          List.length).sum + b - file.length =
        ((((rewriter_tiles pred z w pl ifd).map (fun t => t.data)).take k).map
          List.length).sum + b := by
      omega
    rw [harith, flatten_getElem_partial _ k b hkd (by rw [hget]; exact hb), hget]
  · intro k hk b hb
    have hkc : k < ((rewriter_tiles pred z w pl ifd).map (fun t => t.count)).length := by
      rw [List.length_map]; exact hk
    rw [hbyte _, if_neg (by omega), if_neg (by omega), if_pos (by omega)]
    have harith : ifd.tag279_valueoffset + (4 * k + b) - ifd.tag279_valueoffset =
        4 * k + b := by
      omega
    rw [harith, flatten_map_tc_getElem _ _ k b hkc hb]
    have hgc : ((rewriter_tiles pred z w pl ifd).map (fun t => t.count)).get ⟨k, hkc⟩ =
        ((rewriter_tiles pred z w pl ifd).get ⟨k, hk⟩).count := by
      simp [List.get_eq_getElem, List.getElem_map]
    rw [hgc]
  · intro k hk b hb
    have hkd : k < ((rewriter_tiles pred z w pl ifd).map (fun t => t.data)).length := by
      rw [List.length_map]; exact hk
    have hko : k < (stripOffsetsFrom file.length
        ((rewriter_tiles pred z w pl ifd).map (fun t => t.data))).length := by
      rw [stripOffsetsFrom_length, List.length_map]; exact hk
    rw [hbyte _, if_pos (by omega)]
    have harith : ifd.tag273_valueoffset + (4 * k + b) - ifd.tag273_valueoffset =
        4 * k + b := by
      omega
    rw [harith, flatten_map_tc_getElem _ _ k b hko hb]
    have hog : (stripOffsetsFrom file.length
        ((rewriter_tiles pred z w pl ifd).map (fun t => t.data))).get ⟨k, hko⟩ =
        file.length + ((((rewriter_tiles pred z w pl ifd).map (fun t => t.data)).take k).map
          List.length).sum := by
      have h1 := stripOffsetsFrom_getElem file.length
        ((rewriter_tiles pred z w pl ifd).map (fun t => t.data)) k hkd
      rw [List.getElem?_eq_getElem hko] at h1
      simpa [List.get_eq_getElem] using Option.some.inj h1
    rw [hog]
  · intro hmem b hb
    have heff : rewriter_compression ifd = 8 := by
      simp [rewriter_compression, hmem]
    have hchg : rewriter_compression ifd ≠ ifd.compression := by
      rw [heff]
      intro hcontra
      exact hmem (by rw [← hcontra]; simp [COMPRESSION_values])
    rw [hbyte _, if_neg (by omega), if_neg (by omega), if_neg (by omega),
      if_pos ⟨hchg, by omega, by omega⟩]
    have harith : ifd.tag259_valueoffset + b - ifd.tag259_valueoffset = b := by omega
    rw [harith, heff]
  · intro hmem b hb
    have heq : rewriter_compression ifd = ifd.compression := by
      simp [rewriter_compression, hmem]
    rw [hbyte _, if_neg (by omega), if_neg (by omega), if_neg (by omega),
      if_neg (fun hcond => hcond.1 heq), if_neg (by omega)]

/-- C9: if the source label's compression is not one of NONE (1), LZW (5),
ADOBE_DEFLATE (8), the rewriter encodes the pseudonym label with
ADOBE_DEFLATE instead and rewrites tag 259's value slot in the file to 8;
if the source compression is one of those three it is kept and tag 259's
bytes are left untouched. -/
theorem c9_compression_fallback (pred : Raster → Raster) (z w : List Nat → List Nat)
    (file : List Nat) (pl : Raster) (ifd : TiffIFD)
    (hWF : ReplaceWF file ifd (rewriter_tiles pred z w pl ifd).length)
    (hbound : file.length +
      (((rewriter_tiles pred z w pl ifd).map (fun t => t.data)).map List.length).sum <
      2147483648) :
    ∃ R, replace_label_with_pseudonym_svs pred z w file pl ifd = some R ∧
      (ifd.compression ∉ COMPRESSION_values →
        rewriter_tiles pred z w pl ifd =
          compression_image pred z w pl ifd.rowsperstrip ifd.predictor 8 ∧
        ∀ b, b < 4 → R[ifd.tag259_valueoffset + b]? =
          (int_to_bytes_tc ((8 : Nat) : Int) 4 (is_big_endian_file file))[b]?) ∧
      (ifd.compression ∈ COMPRESSION_values →
        rewriter_tiles pred z w pl ifd =
          compression_image pred z w pl ifd.rowsperstrip ifd.predictor
            ifd.compression ∧
        ∀ b, b < 4 →
          R[ifd.tag259_valueoffset + b]? = file[ifd.tag259_valueoffset + b]?) := by
  obtain ⟨hne, hS, h259, h279, h273, dj1, dj2, dj3, dj4, dj5, dj6⟩ := hWF
  simp only [regionsDisjoint] at dj1 dj2 dj3 dj4 dj5 dj6
  have hT : ∀ c ∈ (rewriter_tiles pred z w pl ifd).map (fun t => t.count),
      c < 2147483648 := by
    intro c hcmem
    simp only [List.mem_map] at hcmem
    obtain ⟨t, ht, rfl⟩ := hcmem
    have h1 : t.count = t.data.length := rewriter_tiles_count_eq pred z w pl ifd t ht
    have h2 : t.data.length ≤
        (((rewriter_tiles pred z w pl ifd).map (fun t => t.data)).map List.length).sum := by
      apply List.single_le_sum (fun x _ => Nat.zero_le x)
      simp only [List.map_map, List.mem_map]
      exact ⟨t, ht, rfl⟩
    omega
  have hO : ∀ o ∈ stripOffsetsFrom file.length
      ((rewriter_tiles pred z w pl ifd).map (fun t => t.data)), o < 2147483648 := by
    intro o homem
    have := stripOffsetsFrom_mem_le file.length
      ((rewriter_tiles pred z w pl ifd).map (fun t => t.data)) o homem
    omega
  have hres := replace_label_eq pred z w file pl ifd hne hS h259 h279 h273 hT hO
  have hcflen : ((((rewriter_tiles pred z w pl ifd).map (fun t => t.count)).map
      (fun c : Nat => int_to_bytes_tc (c : Int) 4 (is_big_endian_file file))).flatten).length =
      4 * (rewriter_tiles pred z w pl ifd).length := by
    rw [flatten_map_tc_length, List.length_map]
  have hoflen : (((stripOffsetsFrom file.length
      ((rewriter_tiles pred z w pl ifd).map (fun t => t.data))).map
      (fun o : Nat => int_to_bytes_tc (o : Int) 4 (is_big_endian_file file))).flatten).length =
      4 * (rewriter_tiles pred z w pl ifd).length := by
    rw [flatten_map_tc_length, stripOffsetsFrom_length, List.length_map]
  have hbyte := fun j => rewrite_chain_getElem file
    ((((rewriter_tiles pred z w pl ifd).map (fun t => t.count)).map
      (fun c : Nat => int_to_bytes_tc (c : Int) 4 (is_big_endian_file file))).flatten)
    (((rewriter_tiles pred z w pl ifd).map (fun t => t.data)).flatten)
    (((stripOffsetsFrom file.length
        ((rewriter_tiles pred z w pl ifd).map (fun t => t.data))).map
      (fun o : Nat => int_to_bytes_tc (o : Int) 4 (is_big_endian_file file))).flatten)
    (int_to_bytes_tc ((rewriter_compression ifd : Nat) : Int) 4 (is_big_endian_file file))
    (ifd.dataoffsets.headD 0) ifd.databytecounts.sum
    ifd.tag259_valueoffset ifd.tag279_valueoffset ifd.tag273_valueoffset
    (rewriter_compression ifd ≠ ifd.compression)
    hS h259 (by rw [hcflen]; exact h279) (by rw [hoflen]; exact h273)
    (int_to_bytes_tc_length _ _ _) j
  refine ⟨_, hres, ?_, ?_⟩
  · intro hmem
    have heff : rewriter_compression ifd = 8 := by
      simp [rewriter_compression, hmem]
    refine ⟨by rw [rewriter_tiles, heff], ?_⟩
    intro b hb
    have hchg : rewriter_compression ifd ≠ ifd.compression := by
      rw [heff]
      intro hcontra
      exact hmem (by rw [← hcontra]; simp [COMPRESSION_values])
    rw [hbyte _, if_neg (by omega), if_neg (by omega), if_neg (by omega),
      if_pos ⟨hchg, by omega, by omega⟩]
    have harith : ifd.tag259_valueoffset + b - ifd.tag259_valueoffset = b := by omega
    rw [harith, heff]
  · intro hmem
    have heq : rewriter_compression ifd = ifd.compression := by
      simp [rewriter_compression, hmem]
    refine ⟨by rw [rewriter_tiles, heq], ?_⟩
    intro b hb
    rw [hbyte _, if_neg (by omega), if_neg (by omega), if_neg (by omega),
      if_neg (fun hcond => hcond.1 heq), if_neg (by omega)]

/-- A small little-endian test file (`II` marker): tag 259's value slot at
offset 4, tag 279's at 8, tag 273's at 12, strip region `[20, 24)`. -/
def sample_file : List Nat := [73, 73] ++ List.replicate 42 7

/-- A label IFD over `sample_file` with supported compression NONE (1). -/
def sample_ifd : TiffIFD :=
  { compression := 1, rowsperstrip := 2, predictor := 1,
    databytecounts := [4], dataoffsets := [20],
    tag259_valueoffset := 4, tag279_valueoffset := 8, tag273_valueoffset := 12 }

/-- The same label IFD with unsupported compression 7 (JPEG). -/
def sample_ifd_jpeg : TiffIFD :=
  { sample_ifd with compression := 7 }

/-- A 2-row, 1-column, 1-sample pseudonym label raster. -/
def sample_label : Raster := [[[9]], [[8]]]

/-- Witness for C2: the rewriter on the concrete sample file zeroes the
first byte of the old strip region. -/
theorem c2_replace_strips_algorithm_witness :
    (ReplaceWF sample_file sample_ifd
        (rewriter_tiles id id id sample_label sample_ifd).length ∧
      sample_file.length +
        (((rewriter_tiles id id id sample_label sample_ifd).map (fun t => t.data)).map
          List.length).sum < 2147483648) ∧
    ∃ R, replace_label_with_pseudonym_svs id id id sample_file sample_label sample_ifd =
        some R ∧ R[(20 : Nat) + 0]? = some 0 := by
  obtain ⟨R, hR, h1, _⟩ := c2_replace_strips_algorithm id id id sample_file sample_label
    sample_ifd (by decide) (by decide)
  exact ⟨⟨by decide, by decide⟩, R, hR, h1 0 (by decide)⟩

/-- Witness for C9: with JPEG (7) source compression the sample rewrite
uses Adobe Deflate and writes 8 into tag 259's slot. -/
theorem c9_compression_fallback_witness :
    (ReplaceWF sample_file sample_ifd_jpeg
        (rewriter_tiles id id id sample_label sample_ifd_jpeg).length ∧
      sample_file.length +
        (((rewriter_tiles id id id sample_label sample_ifd_jpeg).map (fun t => t.data)).map
          List.length).sum < 2147483648) ∧
    ∃ R, replace_label_with_pseudonym_svs id id id sample_file sample_label
        sample_ifd_jpeg = some R ∧
      rewriter_tiles id id id sample_label sample_ifd_jpeg =
        compression_image id id id sample_label sample_ifd_jpeg.rowsperstrip
          sample_ifd_jpeg.predictor 8 ∧
      R[sample_ifd_jpeg.tag259_valueoffset + 0]? =
        (int_to_bytes_tc ((8 : Nat) : Int) 4 (is_big_endian_file sample_file))[0]? := by
  obtain ⟨R, hR, hno, _⟩ := c9_compression_fallback id id id sample_file sample_label
    sample_ifd_jpeg (by decide) (by decide)
  have h2 := hno (by decide)
  exact ⟨⟨by decide, by decide⟩, R, hR, h2.1, h2.2 0 (by decide)⟩

/-!
## Description replacement (`Pseudonymization.replace_metadata_svs`)
-/

/-- The fields of an IFD's ImageDescription tag (tag 270) used by
`replace_metadata_svs`, as exposed by `tifffile`: the position of the tag
entry in the IFD table (`tag.offset`), the stored `count`, the
`value-offset`, and the current description (`page.description`) as bytes. -/
structure DescriptionTag where
  offset : Nat
  count : Nat
  valueoffset : Nat
  description : List Nat
  deriving Repr, DecidableEq

/-- Python's `s.ljust(n)`: pad on the right with spaces (byte 32) to
length `n`; a string already at least `n` long is returned unchanged. -/
def ljust (s : List Nat) (n : Nat) : List Nat :=
  s ++ List.replicate (n - s.length) 32

/-- The per-IFD loop body of `Pseudonymization.replace_metadata_svs`:
write the new metadata length into the tag's count field (`offset + 4`);
then, if the old description is strictly longer than the new text, pad the
new text with spaces to the tag's `count` and overwrite in place at the
unchanged value-offset; otherwise wipe the old region with `count` spaces,
append the new text at end-of-file, and write the appended position into
the value-offset field (`offset + 8`). -/
def replace_description_one (file : List Nat) (tag : DescriptionTag)
    (metadata : List Nat) (big_endian : Bool) : Option (List Nat) := do
  let lenBytes ← int_to_bytes (metadata.length : Int) 4 big_endian
  let f1 := writeAt file (tag.offset + 4) lenBytes
  if tag.description.length > metadata.length then
    some (writeAt f1 tag.valueoffset (ljust metadata tag.count))
  else
    let f2 := writeAt f1 tag.valueoffset (List.replicate tag.count 32)
    let offset := f2.length
    let f3 := f2 ++ metadata
    let offBytes ← int_to_bytes (offset : Int) 4 big_endian
    some (writeAt f3 (tag.offset + 8) offBytes)

/-- `Pseudonymization.replace_metadata_svs`: determine the byte order from
the header marker, then rewrite each (page record, new metadata) pair in
order. -/
def replace_metadata_svs (file : List Nat)
    (records : List (DescriptionTag × List Nat)) : Option (List Nat) :=
  records.foldlM
    (fun f r => replace_description_one f r.1 r.2 (is_big_endian_file file)) file

/-- Counterexample to C3 as stated: with a new text of exactly the old
length (2 = 2) the code takes the append path, not the pad path — the
value-offset field at `offset + 8` is updated (claim says unchanged), the
new text is appended at end-of-file (length grows), and the old region is
wiped with spaces (byte 32), not zeros. -/
theorem c3_replace_description_counterexample :
    ∃ R, replace_description_one (List.range 40) ⟨10, 2, 30, [1, 2]⟩ [5, 6] false =
        some R ∧
      ([5, 6] : List Nat).length ≤ ([1, 2] : List Nat).length ∧
      R[18]? ≠ (List.range 40)[18]? ∧
      R.length = 42 ∧
      R[30]? = some 32 := by
  refine ⟨_, rfl, ?_, ?_, ?_, ?_⟩ <;> decide

/-- Structural well-formedness of a description tag against a file: the
tag entry and the value region are inside the file and disjoint, the tag's
`count` covers the description, and the integer writes are in range. -/
def DescriptionWF (file : List Nat) (tag : DescriptionTag) (metadata : List Nat) : Prop :=
  tag.offset + 12 ≤ file.length ∧
  tag.valueoffset + tag.count ≤ file.length ∧
  regionsDisjoint (tag.offset + 4) 8 tag.valueoffset tag.count ∧
  tag.description.length ≤ tag.count ∧
  metadata.length < 2147483648 ∧
  file.length < 2147483648

instance (file : List Nat) (tag : DescriptionTag) (metadata : List Nat) :
    Decidable (DescriptionWF file tag metadata) := by
  unfold DescriptionWF regionsDisjoint
  infer_instance

/-- C3 as amended: the pad-in-place path applies exactly when the new
text is strictly shorter than the old description — the new text is padded
with spaces to the tag's `count` and written at the unchanged value-offset,
and the count field at `offset + 4` gets the new unpadded length; when the
new text's length is greater than or equal to the old, the old region is
overwritten with `count` space bytes (not zeros), the new text is appended
at end-of-file, the new count is written, and the value-offset at
`offset + 8` is updated to the appended location. -/
theorem c3_replace_description_amended (file : List Nat) (tag : DescriptionTag)
    (metadata : List Nat) (be : Bool)
    (hWF : DescriptionWF file tag metadata) :
    ∃ R, replace_description_one file tag metadata be = some R ∧
      (∀ b, b < 4 → R[tag.offset + 4 + b]? =
        (int_to_bytes_tc (metadata.length : Int) 4 be)[b]?) ∧
      (metadata.length < tag.description.length →
        R.length = file.length ∧
        (∀ b, b < tag.count →
          R[tag.valueoffset + b]? = (ljust metadata tag.count)[b]?) ∧
        (∀ b, b < 4 → R[tag.offset + 8 + b]? = file[tag.offset + 8 + b]?)) ∧
      (tag.description.length ≤ metadata.length →
        R.length = file.length + metadata.length ∧
        (∀ b, b < tag.count → R[tag.valueoffset + b]? = some 32) ∧
        (∀ b, b < metadata.length → R[file.length + b]? = metadata[b]?) ∧
        (∀ b, b < 4 → R[tag.offset + 8 + b]? =
          (int_to_bytes_tc (file.length : Int) 4 be)[b]?)) := by
  obtain ⟨hoff, hval, hdisj, hdc, hm31, hf31⟩ := hWF
  simp only [regionsDisjoint] at hdisj
  have hlb := int_to_bytes_eq_some (metadata.length : Int) be (by omega) (by omega)
  have hlen1 : (writeAt file (tag.offset + 4)
      (int_to_bytes_tc (metadata.length : Int) 4 be)).length = file.length := by
    apply writeAt_length_of_le
    rw [int_to_bytes_tc_length]
    omega
  have hb1 : ∀ i, (writeAt file (tag.offset + 4)
      (int_to_bytes_tc (metadata.length : Int) 4 be))[i]? =
      if tag.offset + 4 ≤ i ∧ i < tag.offset + 8 then
        (int_to_bytes_tc (metadata.length : Int) 4 be)[i - (tag.offset + 4)]?
      else file[i]? := by
    intro i
    rw [writeAt_getElem _ _ _ i (by omega), int_to_bytes_tc_length]
    split_ifs <;> first | rfl | omega | (exfalso; omega)
  by_cases hcase : tag.description.length > metadata.length
  · -- pad path
    have hpadlen : (ljust metadata tag.count).length = tag.count := by
      simp only [ljust, List.length_append, List.length_replicate]
      omega
    have hFb : ∀ i, (writeAt (writeAt file (tag.offset + 4)
        (int_to_bytes_tc (metadata.length : Int) 4 be)) tag.valueoffset
        (ljust metadata tag.count))[i]? =
        if tag.valueoffset ≤ i ∧ i < tag.valueoffset + tag.count then
          (ljust metadata tag.count)[i - tag.valueoffset]?
        else if tag.offset + 4 ≤ i ∧ i < tag.offset + 8 then
          (int_to_bytes_tc (metadata.length : Int) 4 be)[i - (tag.offset + 4)]?
        else file[i]? := by
      intro i
      rw [writeAt_getElem _ _ _ i (by rw [hlen1]; omega), hpadlen]
      simp only [hb1]
      split_ifs <;> first | rfl | omega | (exfalso; omega)
    have hres : replace_description_one file tag metadata be =
        some (writeAt (writeAt file (tag.offset + 4)
          (int_to_bytes_tc (metadata.length : Int) 4 be)) tag.valueoffset
          (ljust metadata tag.count)) := by
      simp only [replace_description_one, hlb, Option.bind_eq_bind, Option.some_bind,
        if_pos hcase]
    refine ⟨_, hres, ?_, ?_, ?_⟩
    · intro b hb
      rw [hFb, if_neg (by omega), if_pos (by omega)]
      exact getElem?_congr_idx _ (by omega)
    · intro hlt
      refine ⟨?_, ?_, ?_⟩
      · rw [writeAt_length_of_le _ _ _ (by rw [hlen1, hpadlen]; omega)]
        exact hlen1
      · intro b hb
        rw [hFb, if_pos (by omega)]
        exact getElem?_congr_idx _ (by omega)
      · intro b hb
        rw [hFb, if_neg (by omega), if_neg (by omega)]
    · intro hge
      omega
  · -- append path
    have hlen2 : (writeAt (writeAt file (tag.offset + 4)
        (int_to_bytes_tc (metadata.length : Int) 4 be)) tag.valueoffset
        (List.replicate tag.count 32)).length = file.length := by
      rw [writeAt_length_of_le _ _ _ (by rw [hlen1, List.length_replicate]; omega)]
      exact hlen1
    have hob := int_to_bytes_eq_some ((file.length : Nat) : Int) be (by omega) (by omega)
    have hF2b : ∀ i, (writeAt (writeAt file (tag.offset + 4)
        (int_to_bytes_tc (metadata.length : Int) 4 be)) tag.valueoffset
        (List.replicate tag.count 32))[i]? =
        if tag.valueoffset ≤ i ∧ i < tag.valueoffset + tag.count then some 32
        else if tag.offset + 4 ≤ i ∧ i < tag.offset + 8 then
          (int_to_bytes_tc (metadata.length : Int) 4 be)[i - (tag.offset + 4)]?
        else file[i]? := by
      intro i
      rw [writeAt_getElem _ _ _ i (by rw [hlen1]; omega), List.length_replicate]
      simp only [hb1]
      split_ifs <;>
        first
          | rfl
          | omega
          | (rw [List.getElem?_replicate, if_pos (by omega)])
          | (exfalso; omega)
    have hF3b : ∀ i, ((writeAt (writeAt file (tag.offset + 4)
        (int_to_bytes_tc (metadata.length : Int) 4 be)) tag.valueoffset
        (List.replicate tag.count 32)) ++ metadata)[i]? =
        if i < file.length then
          (writeAt (writeAt file (tag.offset + 4)
            (int_to_bytes_tc (metadata.length : Int) 4 be)) tag.valueoffset
            (List.replicate tag.count 32))[i]?
        else metadata[i - file.length]? := by
      intro i
      rw [List.getElem?_append, hlen2]
    have hF3len : ((writeAt (writeAt file (tag.offset + 4)
        (int_to_bytes_tc (metadata.length : Int) 4 be)) tag.valueoffset
        (List.replicate tag.count 32)) ++ metadata).length =
        file.length + metadata.length := by
      rw [List.length_append, hlen2]
    have hF4b : ∀ i, (writeAt ((writeAt (writeAt file (tag.offset + 4)
        (int_to_bytes_tc (metadata.length : Int) 4 be)) tag.valueoffset
        (List.replicate tag.count 32)) ++ metadata) (tag.offset + 8)
        (int_to_bytes_tc ((file.length : Nat) : Int) 4 be))[i]? =
        if tag.offset + 8 ≤ i ∧ i < tag.offset + 12 then
          (int_to_bytes_tc ((file.length : Nat) : Int) 4 be)[i - (tag.offset + 8)]?
        else ((writeAt (writeAt file (tag.offset + 4)
          (int_to_bytes_tc (metadata.length : Int) 4 be)) tag.valueoffset
          (List.replicate tag.count 32)) ++ metadata)[i]? := by
      intro i
      rw [writeAt_getElem _ _ _ i (by rw [hF3len]; omega), int_to_bytes_tc_length]
      split_ifs <;> first | rfl | omega | (exfalso; omega)
    have hres : replace_description_one file tag metadata be =
        some (writeAt ((writeAt (writeAt file (tag.offset + 4)
          (int_to_bytes_tc (metadata.length : Int) 4 be)) tag.valueoffset
          (List.replicate tag.count 32)) ++ metadata) (tag.offset + 8)
          (int_to_bytes_tc ((file.length : Nat) : Int) 4 be)) := by
      simp only [replace_description_one, hlb, Option.bind_eq_bind, Option.some_bind]
      rw [if_neg hcase, hlen2, hob, Option.some_bind]
    refine ⟨_, hres, ?_, ?_, ?_⟩
    · intro b hb
      rw [hF4b, if_neg (by omega), hF3b, if_pos (by omega), hF2b, if_neg (by omega),
        if_pos (by omega)]
      exact getElem?_congr_idx _ (by omega)
    · intro hlt
      omega
    · intro hge
      refine ⟨?_, ?_, ?_, ?_⟩
      · rw [writeAt_length_of_le _ _ _ (by rw [hF3len, int_to_bytes_tc_length]; omega)]
        exact hF3len
      · intro b hb
        rw [hF4b, if_neg (by omega), hF3b, if_pos (by omega), hF2b, if_pos (by omega)]
      · intro b hb
        rw [hF4b, if_neg (by omega), hF3b, if_neg (by omega)]
        exact getElem?_congr_idx _ (by omega)
      · intro b hb
        rw [hF4b, if_pos (by omega)]
        exact getElem?_congr_idx _ (by omega)

/-- Witness for the amended C3: a 2-byte new text against a 3-byte old
description takes the pad path on a concrete file and leaves the
value-offset field untouched. -/
theorem c3_replace_description_amended_witness :
    DescriptionWF (List.range 40) ⟨10, 3, 30, [1, 2, 3]⟩ [5, 6] ∧
    ∃ R, replace_description_one (List.range 40) ⟨10, 3, 30, [1, 2, 3]⟩ [5, 6] false =
        some R ∧
      R[18]? = (List.range 40)[18]? := by
  obtain ⟨R, hR, _, hpad, _⟩ := c3_replace_description_amended (List.range 40)
    ⟨10, 3, 30, [1, 2, 3]⟩ [5, 6] false (by decide)
  exact ⟨by decide, R, hR, (hpad (by decide)).2.2 0 (by decide)⟩

/-!
## Timestamp pseudonyms (`generate_random_date_from_str`, per-invocation gap)
-/

/-- Python's `random.randint(a, b)`: an integer drawn uniformly from the
inclusive range `[a, b]`, modelled as a seed-indexed uniform choice over
the `b - a + 1` residues. -/
def randint (a b seed : Nat) : Nat := a + seed % (b - a + 1)

/-- The per-invocation gap draw of `Pseudonymization.create`:
`self.gap_year = random.randint(1, 8)`. -/
def Pseudonymization_create_gap_year (seed : Nat) : Nat := randint 1 8 seed

/-- A Python `datetime.datetime` value as produced by
`dateutil.parser.parse`. -/
structure PyDateTime where
  year : Int
  month : Nat
  day : Nat
  hour : Nat
  minute : Nat
  second : Nat
  deriving Repr, DecidableEq

/-- Gregorian leap-year test. -/
def isLeap (y : Int) : Prop := y % 4 = 0 ∧ (y % 100 ≠ 0 ∨ y % 400 = 0)

instance (y : Int) : Decidable (isLeap y) := by
  unfold isLeap
  infer_instance

/-- Python's `dt.replace(year=y)`: raises `ValueError` (here `none`) only
when the day does not exist in the target year, i.e. Feb 29 mapped to a
non-leap year. -/
def replace_year (d : PyDateTime) (y : Int) : Option PyDateTime :=
  if d.month = 2 ∧ d.day = 29 ∧ ¬ isLeap y then none
  else some { d with year := y }

/-- A value drawn by the faker inside `generate_random_date_from_str`:
`faker.date_time_between` (taken when `dt.hour + dt.minute + dt.second > 0`)
returns a `datetime.datetime`, while `faker.date_between` (taken otherwise)
returns a `datetime.date` with no time of day.  The constructor records
which branch produced the draw. -/
inductive PyDateValue where
  | pydate (year : Int) (month day : Nat)
  | pydatetime (v : PyDateTime)
  deriving Repr, DecidableEq

/-- Python's `new_date != dt` for a faker draw against the
`dateutil`-parsed input: a `datetime.date` is never equal to a
`datetime.datetime`, even on the same calendar day, and two
`datetime.datetime` values are unequal iff a field differs. -/
def pyNeDt (new_date : PyDateValue) (dt : PyDateTime) : Bool :=
  match new_date with
  | .pydate _ _ _ => true
  | .pydatetime v => v != dt

/-- The draw falls on the same calendar date as `dt`. -/
def sameCalendar (v : PyDateValue) (dt : PyDateTime) : Bool :=
  match v with
  | .pydate y mo d => y == dt.year && mo == dt.month && d == dt.day
  | .pydatetime w => w.year == dt.year && w.month == dt.month && w.day == dt.day

/-- `pseudonymisation.generate_random_date_from_str`, with the external
randomness made explicit: `draws` is the stream of faker results, one per
loop iteration (the input's time of day fixes the branch, and with it the
draw type, for the whole call).  `start_date =
dt.replace(year=dt.year - gap_year)` runs before the loop and propagates
its `ValueError`; the loop returns the first draw with `new_date != dt`
under Python comparison semantics (`pyNeDt`); an exhausted stream models
the loop never terminating. -/
def generate_random_date_from_str (draws : List PyDateValue) (dt : PyDateTime)
    (gap_year : Int) : Option PyDateValue :=
  match replace_year dt (dt.year - gap_year) with
  | none => none
  | some _ => draws.find? (fun new_date => pyNeDt new_date dt)

/-- Modelled from the spec: the retry is meant to reject a pseudonym equal
to the original timestamp ("the randomized date will never be same the
input date", `T' ≠ T`) — for a `datetime.date` draw against a date-typed
input that means rejecting a draw on the original calendar date. -/
def specNeDt (new_date : PyDateValue) (dt : PyDateTime) : Bool :=
  match new_date with
  | .pydate y mo d => !(y == dt.year && mo == dt.month && d == dt.day)
  | .pydatetime v => v != dt

/-- Modelled from the spec: `generate_random_date_from_str` with the
intended non-identity retry. -/
def generate_random_date_from_str_spec (draws : List PyDateValue) (dt : PyDateTime)
    (gap_year : Int) : Option PyDateValue :=
  match replace_year dt (dt.year - gap_year) with
  | none => none
  | some _ => draws.find? (fun new_date => specNeDt new_date dt)

/-- C4: code bug.  For a date-typed timestamp (parsed time 00:00:00, so
the source takes the `faker.date_between` branch and the draws are
`datetime.date` values), the retry guard `new_date != dt` compares a
`date` with a `datetime`, which in Python is always unequal; the function
therefore returns the very first draw even when it falls on the original
calendar date, so the pseudonym can equal the original date — contradicting
the claimed `T' ≠ T` and the function's own docstring, under which the
second draw would have been returned instead. -/
theorem c4_timestamp_pseudonym_code_bug :
    generate_random_date_from_str
      [PyDateValue.pydate 2020 6 15, PyDateValue.pydate 2021 3 4]
      ⟨2020, 6, 15, 0, 0, 0⟩ 5 = some (PyDateValue.pydate 2020 6 15) ∧
    sameCalendar (PyDateValue.pydate 2020 6 15) ⟨2020, 6, 15, 0, 0, 0⟩ = true ∧
    generate_random_date_from_str_spec
      [PyDateValue.pydate 2020 6 15, PyDateValue.pydate 2021 3 4]
      ⟨2020, 6, 15, 0, 0, 0⟩ 5 = some (PyDateValue.pydate 2021 3 4) ∧
    generate_random_date_from_str
        [PyDateValue.pydate 2020 6 15, PyDateValue.pydate 2021 3 4]
        ⟨2020, 6, 15, 0, 0, 0⟩ 5 ≠
      generate_random_date_from_str_spec
        [PyDateValue.pydate 2020 6 15, PyDateValue.pydate 2021 3 4]
        ⟨2020, 6, 15, 0, 0, 0⟩ 5 := by
  refine ⟨?_, ?_, ?_, ?_⟩ <;> decide

/-!
## Registry and pseudonym stability (`WSI.create` and the commit of
`perform_single_wsi`)
-/

/-- The slide fields of the JSON input consumed by `WSI.create`;
`acquired_at` is the `dateutil`-parsed timestamp as a chronological key. -/
structure WSIInput where
  id : String
  name : Option String
  acquired_at : Option Int
  stain : Option String
  tissue : Option String
  deriving Repr, DecidableEq

/-- A WSI row of the registry (`db.model.WSI`): real fields and their
pseudonymous counterparts. -/
structure WSIStored where
  id : String
  name : Option String
  acquired_at : Option Int
  stain : Option String
  tissue : Option String
  pseudo_id : String
  pseudo_name : Option String
  pseudo_acquired_at : Option Int
  deriving Repr, DecidableEq

/-- The in-memory state of the `WSI` object after `WSI.create`. -/
structure WSIResult where
  id : String
  name : Option String
  acquired_at : Option Int
  stain : Option String
  tissue : Option String
  pseudo_id : String
  pseudo_name : Option String
  pseudo_acquired_at : Option Int
  get_from_database : Bool
  need_to_be_updated : List String
  deriving Repr, DecidableEq

/-- The `"name"` block of `WSI.create`. -/
def WSI_create_name_step (pseudo_wsi : Option WSIStored) (name_in : Option String)
    (r0 : WSIResult) : WSIResult :=
  match name_in with
  | none => r0
  | some n =>
    let r := { r0 with name := some n }
    match pseudo_wsi with
    | none => { r with pseudo_name := some ("wsi_" ++ r.pseudo_id) }
    | some w =>
      if w.name = none then
        { r with
          pseudo_name := some ("wsi_" ++ r.pseudo_id),
          need_to_be_updated := r.need_to_be_updated ++ ["name", "pseudo_name"] }
      else if w.name ≠ some n then
        { r with need_to_be_updated := r.need_to_be_updated ++ ["name"] }
      else r

/-- The `"acquired_at"` block of `WSI.create`; `gen_date` stands for
`generate_random_date_from_str` applied with the invocation's gap year. -/
def WSI_create_acquired_step (pseudo_wsi : Option WSIStored) (gen_date : Int → Int)
    (acquired_in : Option Int) (r1 : WSIResult) : WSIResult :=
  match acquired_in with
  | none => r1
  | some a =>
    let r := { r1 with acquired_at := some a }
    match pseudo_wsi with
    | none => { r with pseudo_acquired_at := some (gen_date a) }
    | some w =>
      if w.acquired_at = none then
        { r with
          pseudo_acquired_at := some (gen_date a),
          need_to_be_updated := r.need_to_be_updated ++ ["acquired_at", "pseudo_acquired_at"] }
      else if w.acquired_at ≠ some a then
        { r with need_to_be_updated := r.need_to_be_updated ++ ["acquired_at"] }
      else r

/-- The `"stain"` block of `WSI.create`. -/
def WSI_create_stain_step (pseudo_wsi : Option WSIStored) (stain_in : Option String)
    (r2 : WSIResult) : WSIResult :=
  match stain_in with
  | none => r2
  | some s =>
    let r := { r2 with stain := some s }
    match pseudo_wsi with
    | none => r
    | some w =>
      if w.stain = none ∨ w.stain ≠ some s then
        { r with need_to_be_updated := r.need_to_be_updated ++ ["stain"] }
      else r

/-- The `"tissue"` block of `WSI.create`. -/
def WSI_create_tissue_step (pseudo_wsi : Option WSIStored) (tissue_in : Option String)
    (r3 : WSIResult) : WSIResult :=
  match tissue_in with
  | none => r3
  | some t =>
    let r := { r3 with tissue := some t }
    match pseudo_wsi with
    | none => r
    | some w =>
      if w.tissue = none ∨ w.tissue ≠ some t then
        { r with need_to_be_updated := r.need_to_be_updated ++ ["tissue"] }
      else r

/-- `WSI.create`: look the slide up in the registry by its real id; reuse
the stored pseudo data when present, otherwise take the freshly allocated
pseudonymous id (`alloc` is the result of `create_unique_pseudo_id`, `none`
for its exception); then run the field blocks.  A `none` result models
`return None` on the exception path. -/
def WSI_create (registry : List WSIStored) (alloc : Option String)
    (gen_date : Int → Int) (input : WSIInput) : Option WSIResult :=
  let pseudo_wsi := registry.find? (fun w => w.id == input.id)
  let base : Option WSIResult :=
    match pseudo_wsi with
    | some w =>
      some { id := input.id, name := none, acquired_at := none, stain := none, tissue := none, pseudo_id := w.pseudo_id, pseudo_name := w.pseudo_name, pseudo_acquired_at := w.pseudo_acquired_at, get_from_database := true, need_to_be_updated := [] }
    | none =>
      match alloc with
      | none => none
      | some p =>
        some { id := input.id, name := none, acquired_at := none, stain := none, tissue := none, pseudo_id := p, pseudo_name := none, pseudo_acquired_at := none, get_from_database := false, need_to_be_updated := [] }
  base.map (fun r0 =>
    WSI_create_tissue_step pseudo_wsi input.tissue
      (WSI_create_stain_step pseudo_wsi input.stain
        (WSI_create_acquired_step pseudo_wsi gen_date input.acquired_at
          (WSI_create_name_step pseudo_wsi input.name r0))))

/-- `setattr(wsi, attr, getattr(slide, attr))` in the update commit of
`perform_single_wsi`, for the attribute names that `WSI.create` can place
in `need_to_be_updated` (an unknown name leaves the row unchanged). -/
def wsi_setattr (w : WSIStored) (r : WSIResult) (attr : String) : WSIStored :=
  if attr = "name" then { w with name := r.name }
  else if attr = "pseudo_name" then { w with pseudo_name := r.pseudo_name }
  else if attr = "acquired_at" then { w with acquired_at := r.acquired_at }
  else if attr = "pseudo_acquired_at" then { w with pseudo_acquired_at := r.pseudo_acquired_at }
  else if attr = "stain" then { w with stain := r.stain }
  else if attr = "tissue" then { w with tissue := r.tissue }
  else w

/-- The registry commit of `perform_single_wsi`: a slide not retrieved from
the database is inserted as a new row built from the created data; an
existing slide has exactly the attributes in `need_to_be_updated` copied
onto its stored row. -/
def commit_wsi (registry : List WSIStored) (r : WSIResult) : List WSIStored :=
  if r.get_from_database = false then
    { id := r.id, name := r.name, acquired_at := r.acquired_at, stain := r.stain, tissue := r.tissue, pseudo_id := r.pseudo_id, pseudo_name := r.pseudo_name, pseudo_acquired_at := r.pseudo_acquired_at } :: registry
  else
    registry.map (fun w =>
      if w.id = r.id then r.need_to_be_updated.foldl (fun w a => wsi_setattr w r a) w
      else w)

theorem WSI_create_name_step_fields (pseudo_wsi : Option WSIStored)
    (name_in : Option String) (r0 : WSIResult) :
    (WSI_create_name_step pseudo_wsi name_in r0).pseudo_id = r0.pseudo_id ∧
    (WSI_create_name_step pseudo_wsi name_in r0).id = r0.id ∧
    (WSI_create_name_step pseudo_wsi name_in r0).get_from_database =
      r0.get_from_database ∧
    ∀ a ∈ (WSI_create_name_step pseudo_wsi name_in r0).need_to_be_updated,
      a ∈ r0.need_to_be_updated ∨ a ∈ ["name", "pseudo_name"] := by
  cases name_in with
  | none => exact ⟨rfl, rfl, rfl, fun a ha => Or.inl ha⟩
  | some n =>
    cases pseudo_wsi with
    | none => exact ⟨rfl, rfl, rfl, fun a ha => Or.inl ha⟩
    | some w =>
      simp only [WSI_create_name_step]
      split_ifs <;> simp_all <;> tauto

theorem WSI_create_acquired_step_fields (pseudo_wsi : Option WSIStored)
    (gen_date : Int → Int) (acquired_in : Option Int) (r1 : WSIResult) :
    (WSI_create_acquired_step pseudo_wsi gen_date acquired_in r1).pseudo_id =
      r1.pseudo_id ∧
    (WSI_create_acquired_step pseudo_wsi gen_date acquired_in r1).id = r1.id ∧
    (WSI_create_acquired_step pseudo_wsi gen_date acquired_in r1).get_from_database =
      r1.get_from_database ∧
    ∀ a ∈ (WSI_create_acquired_step pseudo_wsi gen_date acquired_in r1).need_to_be_updated,
      a ∈ r1.need_to_be_updated ∨ a ∈ ["acquired_at", "pseudo_acquired_at"] := by
  cases acquired_in with
  | none => exact ⟨rfl, rfl, rfl, fun a ha => Or.inl ha⟩
  | some a =>
    cases pseudo_wsi with
    | none => exact ⟨rfl, rfl, rfl, fun a ha => Or.inl ha⟩
    | some w =>
      simp only [WSI_create_acquired_step]
      split_ifs <;> simp_all <;> tauto

theorem WSI_create_stain_step_fields (pseudo_wsi : Option WSIStored)
    (stain_in : Option String) (r2 : WSIResult) :
    (WSI_create_stain_step pseudo_wsi stain_in r2).pseudo_id = r2.pseudo_id ∧
    (WSI_create_stain_step pseudo_wsi stain_in r2).id = r2.id ∧
    (WSI_create_stain_step pseudo_wsi stain_in r2).get_from_database =
      r2.get_from_database ∧
    ∀ a ∈ (WSI_create_stain_step pseudo_wsi stain_in r2).need_to_be_updated,
      a ∈ r2.need_to_be_updated ∨ a ∈ ["stain"] := by
  cases stain_in with
  | none => exact ⟨rfl, rfl, rfl, fun a ha => Or.inl ha⟩
  | some s =>
    cases pseudo_wsi with
    | none => exact ⟨rfl, rfl, rfl, fun a ha => Or.inl ha⟩
    | some w =>
      simp only [WSI_create_stain_step]
      split_ifs <;> simp_all <;> tauto

theorem WSI_create_tissue_step_fields (pseudo_wsi : Option WSIStored)
    (tissue_in : Option String) (r3 : WSIResult) :
    (WSI_create_tissue_step pseudo_wsi tissue_in r3).pseudo_id = r3.pseudo_id ∧
    (WSI_create_tissue_step pseudo_wsi tissue_in r3).id = r3.id ∧
    (WSI_create_tissue_step pseudo_wsi tissue_in r3).get_from_database =
      r3.get_from_database ∧
    ∀ a ∈ (WSI_create_tissue_step pseudo_wsi tissue_in r3).need_to_be_updated,
      a ∈ r3.need_to_be_updated ∨ a ∈ ["tissue"] := by
  cases tissue_in with
  | none => exact ⟨rfl, rfl, rfl, fun a ha => Or.inl ha⟩
  | some t =>
    cases pseudo_wsi with
    | none => exact ⟨rfl, rfl, rfl, fun a ha => Or.inl ha⟩
    | some w =>
      simp only [WSI_create_tissue_step]
      split_ifs <;> simp_all <;> tauto

theorem WSI_create_spec (registry : List WSIStored) (alloc : Option String)
    (gen_date : Int → Int) (input : WSIInput) (r : WSIResult)
    (h : WSI_create registry alloc gen_date input = some r) :
    r.id = input.id ∧
    (∀ w, registry.find? (fun w => w.id == input.id) = some w →
      r.pseudo_id = w.pseudo_id ∧ r.get_from_database = true) ∧
    (registry.find? (fun w => w.id == input.id) = none →
      alloc = some r.pseudo_id ∧ r.get_from_database = false) ∧
    ∀ a ∈ r.need_to_be_updated,
      a ∈ ["name", "pseudo_name", "acquired_at", "pseudo_acquired_at",
        "stain", "tissue"] := by
  unfold WSI_create at h
  have hchain : ∀ (r0 : WSIResult),
      (WSI_create_tissue_step (registry.find? (fun w => w.id == input.id)) input.tissue
        (WSI_create_stain_step (registry.find? (fun w => w.id == input.id)) input.stain
          (WSI_create_acquired_step (registry.find? (fun w => w.id == input.id))
            gen_date input.acquired_at
            (WSI_create_name_step (registry.find? (fun w => w.id == input.id))
              input.name r0)))).pseudo_id = r0.pseudo_id ∧
      (WSI_create_tissue_step (registry.find? (fun w => w.id == input.id)) input.tissue
        (WSI_create_stain_step (registry.find? (fun w => w.id == input.id)) input.stain
          (WSI_create_acquired_step (registry.find? (fun w => w.id == input.id))
            gen_date input.acquired_at
            (WSI_create_name_step (registry.find? (fun w => w.id == input.id))
              input.name r0)))).id = r0.id ∧
      (WSI_create_tissue_step (registry.find? (fun w => w.id == input.id)) input.tissue
        (WSI_create_stain_step (registry.find? (fun w => w.id == input.id)) input.stain
          (WSI_create_acquired_step (registry.find? (fun w => w.id == input.id))
            gen_date input.acquired_at
            (WSI_create_name_step (registry.find? (fun w => w.id == input.id))
              input.name r0)))).get_from_database = r0.get_from_database ∧
      ∀ a ∈ (WSI_create_tissue_step (registry.find? (fun w => w.id == input.id)) input.tissue
        (WSI_create_stain_step (registry.find? (fun w => w.id == input.id)) input.stain
          (WSI_create_acquired_step (registry.find? (fun w => w.id == input.id))
            gen_date input.acquired_at
            (WSI_create_name_step (registry.find? (fun w => w.id == input.id))
              input.name r0)))).need_to_be_updated,
        a ∈ r0.need_to_be_updated ∨
          a ∈ ["name", "pseudo_name", "acquired_at", "pseudo_acquired_at",
            "stain", "tissue"] := by
    intro r0
    obtain ⟨n1, n2, n3, n4⟩ := WSI_create_name_step_fields
      (registry.find? (fun w => w.id == input.id)) input.name r0
    obtain ⟨a1, a2, a3, a4⟩ := WSI_create_acquired_step_fields
      (registry.find? (fun w => w.id == input.id)) gen_date input.acquired_at
      (WSI_create_name_step (registry.find? (fun w => w.id == input.id)) input.name r0)
    obtain ⟨s1, s2, s3, s4⟩ := WSI_create_stain_step_fields
      (registry.find? (fun w => w.id == input.id)) input.stain
      (WSI_create_acquired_step (registry.find? (fun w => w.id == input.id))
        gen_date input.acquired_at
        (WSI_create_name_step (registry.find? (fun w => w.id == input.id)) input.name r0))
    obtain ⟨t1, t2, t3, t4⟩ := WSI_create_tissue_step_fields
      (registry.find? (fun w => w.id == input.id)) input.tissue
      (WSI_create_stain_step (registry.find? (fun w => w.id == input.id)) input.stain
        (WSI_create_acquired_step (registry.find? (fun w => w.id == input.id))
          gen_date input.acquired_at
          (WSI_create_name_step (registry.find? (fun w => w.id == input.id))
            input.name r0)))
    refine ⟨by rw [t1, s1, a1, n1], by rw [t2, s2, a2, n2], by rw [t3, s3, a3, n3], ?_⟩
    intro a ha
    rcases t4 a ha with h4 | h4
    · rcases s4 a h4 with h5 | h5
      · rcases a4 a h5 with h6 | h6
        · rcases n4 a h6 with h7 | h7
          · exact Or.inl h7
          · right
            simp only [List.mem_cons, List.mem_singleton] at h7 ⊢
            tauto
        · right
          simp only [List.mem_cons, List.mem_singleton] at h6 ⊢
          tauto
      · right
        simp only [List.mem_cons, List.mem_singleton] at h5 ⊢
        tauto
    · right
      simp only [List.mem_cons, List.mem_singleton] at h4 ⊢
      tauto
  cases hfind : registry.find? (fun w => w.id == input.id) with
  | some w =>
    rw [hfind] at h
    simp only [Option.map_some'] at h
    obtain ⟨hp, hid, hdb, hupd⟩ := hchain
      { id := input.id, name := none, acquired_at := none, stain := none, tissue := none, pseudo_id := w.pseudo_id, pseudo_name := w.pseudo_name, pseudo_acquired_at := w.pseudo_acquired_at, get_from_database := true, need_to_be_updated := [] }
    rw [hfind] at hp hid hdb hupd
    have hr := Option.some.inj h
    subst hr
    refine ⟨hid, ?_, ?_, ?_⟩
    · intro w' hw'
      have heq : w = w' := Option.some.inj hw'
      subst heq
      exact ⟨hp, hdb⟩
    · intro hnone
      exact absurd hnone (by simp)
    · intro a ha
      rcases hupd a ha with h7 | h7
      · simp at h7
      · exact h7
  | none =>
    rw [hfind] at h
    cases halloc : alloc with
    | none =>
      rw [halloc] at h
      simp at h
    | some p =>
      rw [halloc] at h
      simp only [Option.map_some'] at h
      obtain ⟨hp, hid, hdb, hupd⟩ := hchain
        { id := input.id, name := none, acquired_at := none, stain := none, tissue := none, pseudo_id := p, pseudo_name := none, pseudo_acquired_at := none, get_from_database := false, need_to_be_updated := [] }
      rw [hfind] at hp hid hdb hupd
      have hr := Option.some.inj h
      subst hr
      refine ⟨hid, ?_, ?_, ?_⟩
      · intro w' hw'
        exact absurd hw' (by simp)
      · intro _
        exact ⟨by rw [hp], hdb⟩
      · intro a ha
        rcases hupd a ha with h7 | h7
        · simp at h7
        · exact h7

theorem wsi_setattr_keeps_id_pseudo (w : WSIStored) (r : WSIResult) (attr : String) :
    (wsi_setattr w r attr).id = w.id ∧
    (wsi_setattr w r attr).pseudo_id = w.pseudo_id := by
  unfold wsi_setattr
  split_ifs <;> simp

theorem foldl_setattr_keeps_id_pseudo (attrs : List String) (r : WSIResult)
    (w : WSIStored) :
    (attrs.foldl (fun w a => wsi_setattr w r a) w).id = w.id ∧
    (attrs.foldl (fun w a => wsi_setattr w r a) w).pseudo_id = w.pseudo_id := by
  induction attrs generalizing w with
  | nil => exact ⟨rfl, rfl⟩
  | cons a as ih =>
    simp only [List.foldl_cons]
    obtain ⟨h1, h2⟩ := ih (wsi_setattr w r a)
    obtain ⟨h3, h4⟩ := wsi_setattr_keeps_id_pseudo w r a
    exact ⟨h1.trans h3, h2.trans h4⟩

theorem find?_map_id_preserving (registry : List WSIStored)
    (f : WSIStored → WSIStored) (hid : ∀ w, (f w).id = w.id) (s : String) :
    (registry.map f).find? (fun w => w.id == s) =
      (registry.find? (fun w => w.id == s)).map f := by
  induction registry with
  | nil => rfl
  | cons w ws ih =>
    by_cases hp : (w.id == s) = true
    · rw [List.map_cons, List.find?_cons_of_pos (List.map f ws) (by rw [hid w]; exact hp),
        List.find?_cons_of_pos ws hp, Option.map_some']
    · rw [List.map_cons, List.find?_cons_of_neg (List.map f ws) (by rw [hid w]; simpa using hp),
        List.find?_cons_of_neg ws (by simpa using hp), ih]

/-- C5: a slide already present in the registry keeps its stored
pseudonymous id unchanged through re-ingestion; the update set computed by
`WSI.create` can contain only real fields and the regenerated pseudonymous
name and date, never `"pseudo_id"`; and running create–commit–create on
the same input yields the same pseudonymous id both times. -/
theorem c5_pseudonym_stability (registry : List WSIStored)
    (alloc alloc2 : Option String) (gen_date gen_date2 : Int → Int)
    (input : WSIInput) (r1 r2 : WSIResult)
    (h1 : WSI_create registry alloc gen_date input = some r1)
    (h2 : WSI_create (commit_wsi registry r1) alloc2 gen_date2 input = some r2) :
    (∀ w, registry.find? (fun w => w.id == input.id) = some w →
      r1.pseudo_id = w.pseudo_id) ∧
    "pseudo_id" ∉ r1.need_to_be_updated ∧
    r2.pseudo_id = r1.pseudo_id := by
  obtain ⟨hid1, hstored1, hnew1, hupd1⟩ := WSI_create_spec registry alloc gen_date input r1 h1
  obtain ⟨hid2, hstored2, hnew2, hupd2⟩ := WSI_create_spec (commit_wsi registry r1)
    alloc2 gen_date2 input r2 h2
  refine ⟨fun w hw => (hstored1 w hw).1, ?_, ?_⟩
  · intro hin
    have := hupd1 _ hin
    simp at this
  · cases hfind : registry.find? (fun w => w.id == input.id) with
    | none =>
      obtain ⟨_, hdb⟩ := hnew1 hfind
      have hcommit : commit_wsi registry r1 =
          { id := r1.id, name := r1.name, acquired_at := r1.acquired_at, stain := r1.stain, tissue := r1.tissue, pseudo_id := r1.pseudo_id, pseudo_name := r1.pseudo_name, pseudo_acquired_at := r1.pseudo_acquired_at } :: registry := by
        unfold commit_wsi
        rw [if_pos hdb]
      have hfind2 : (commit_wsi registry r1).find? (fun w => w.id == input.id) =
          some { id := r1.id, name := r1.name, acquired_at := r1.acquired_at, stain := r1.stain, tissue := r1.tissue, pseudo_id := r1.pseudo_id, pseudo_name := r1.pseudo_name, pseudo_acquired_at := r1.pseudo_acquired_at } := by
        rw [hcommit]
        exact List.find?_cons_of_pos registry (by simp [hid1])
      exact (hstored2 _ hfind2).1
    | some w =>
      obtain ⟨hp1, hdb⟩ := hstored1 w hfind
      have hcommit : commit_wsi registry r1 =
          registry.map (fun w =>
            if w.id = r1.id then
              r1.need_to_be_updated.foldl (fun w a => wsi_setattr w r1 a) w
            else w) := by
        unfold commit_wsi
        rw [if_neg (by rw [hdb]; simp)]
      have hidpres : ∀ w', ((fun w =>
          if w.id = r1.id then
            r1.need_to_be_updated.foldl (fun w a => wsi_setattr w r1 a) w
          else w) w').id = w'.id := by
        intro w'
        by_cases hc : w'.id = r1.id
        · simp only [if_pos hc]
          exact (foldl_setattr_keeps_id_pseudo r1.need_to_be_updated r1 w').1
        · simp only [if_neg hc]
      have hfind2 : (commit_wsi registry r1).find? (fun w => w.id == input.id) =
          some ((fun w =>
            if w.id = r1.id then
              r1.need_to_be_updated.foldl (fun w a => wsi_setattr w r1 a) w
            else w) w) := by
        rw [hcommit, find?_map_id_preserving registry _ hidpres input.id, hfind,
          Option.map_some']
      have hp2 := (hstored2 _ hfind2).1
      rw [hp2]
      by_cases hc : w.id = r1.id
      · simp only [if_pos hc]
        rw [(foldl_setattr_keeps_id_pseudo r1.need_to_be_updated r1 w).2, hp1]
      · simp only [if_neg hc]
        exact hp1.symm ▸ rfl

/-- Witness for C5 on a concrete registry: a stored slide is re-ingested
and keeps its pseudonymous id through two consecutive runs. -/
theorem c5_pseudonym_stability_witness :
    (WSI_create [⟨"s1", none, none, none, none, "P1", none, none⟩] (some "Q9")
        (fun x => x) ⟨"s1", some "foo", none, some "HE", none⟩).isSome = true ∧
    ∀ r1 r2,
      WSI_create [⟨"s1", none, none, none, none, "P1", none, none⟩] (some "Q9")
        (fun x => x) ⟨"s1", some "foo", none, some "HE", none⟩ = some r1 →
      WSI_create (commit_wsi [⟨"s1", none, none, none, none, "P1", none, none⟩] r1)
        (some "Q8") (fun x => x) ⟨"s1", some "foo", none, some "HE", none⟩ = some r2 →
      r1.pseudo_id = "P1" ∧ "pseudo_id" ∉ r1.need_to_be_updated ∧
        r2.pseudo_id = r1.pseudo_id := by
  refine ⟨by decide, ?_⟩
  intro r1 r2 h1 h2
  obtain ⟨hst, hni, hsame⟩ := c5_pseudonym_stability
    [⟨"s1", none, none, none, none, "P1", none, none⟩] (some "Q9") (some "Q8")
    (fun x => x) (fun x => x) ⟨"s1", some "foo", none, some "HE", none⟩ r1 r2 h1 h2
  exact ⟨hst ⟨"s1", none, none, none, none, "P1", none, none⟩ (by decide), hni, hsame⟩

/-!
## Pseudonymous id allocation (`generate_id`, `create_unique_pseudo_id`)
-/

/-- The nanoid alphabet used by `generate_id`. -/
def generate_id_alphabet : List Char :=
  "0123456789ABCDEFGHIJKLMNOPQRSTUVWXYZabcdefghijklmnopqrstuvwxyz".toList

/-- `pseudonymisation.generate_id`: a nanoid draw of `size` characters
from the 62-character alphabet; the external randomness is the function
`draw`, giving each position's alphabet index. -/
def generate_id (draw : Nat → Nat) (size : Nat) : List Char :=
  (List.range size).map (fun i => generate_id_alphabet.getD (draw i % 62) '0')

/-- The retry loop of `create_unique_pseudo_id`, faithful to the source:
`pseudo_id` is the id generated before the loop and every iteration looks
up this SAME id (the registry lookup is indexed by the iteration number
because the database may change between the suspending lookups); a
collision decrements the trial counter and the exception (`none`) is
raised when it reaches zero. -/
def create_unique_pseudo_id_loop (existsInDb : Nat → List Char → Bool)
    (pseudo_id : List Char) : Nat → Nat → Option (List Char)
  | i, 0 => if existsInDb i pseudo_id then none else some pseudo_id
  | i, t + 1 =>
    if existsInDb i pseudo_id then
      if t = 0 then none
      else create_unique_pseudo_id_loop existsInDb pseudo_id (i + 1) t
    else some pseudo_id

/-- `pseudonymisation.create_unique_pseudo_id`: generate one pseudonymous
id, then run the check loop with `check_exist_trials` trials. -/
def create_unique_pseudo_id (gen : Nat → List Char)
    (existsInDb : Nat → List Char → Bool) (check_exist_trials : Nat) :
    Option (List Char) :=
  create_unique_pseudo_id_loop existsInDb (gen 0) 0 check_exist_trials

/-- Modelled from the spec: `create_unique_pseudo_id` as §4.5 and the
function's own docstring describe it — on a collision "the pseudo id will
be re-randomized", i.e. a FRESH id is generated at each trial and checked
against the registry. -/
def create_unique_pseudo_id_spec (gen : Nat → List Char)
    (existsInDb : Nat → List Char → Bool) : Nat → Nat → Option (List Char)
  | i, 0 => if existsInDb i (gen i) then none else some (gen i)
  | i, t + 1 =>
    if existsInDb i (gen i) then
      if t = 0 then none
      else create_unique_pseudo_id_spec gen existsInDb (i + 1) t
    else some (gen i)

/-- C6, evaluated at the failing input: with a registry that contains the
single id produced by the first (and only) generation, the source's
`create_unique_pseudo_id` re-checks that same id on all ten trials and
raises the allocation error, although a fresh id per trial (the documented
behaviour, `create_unique_pseudo_id_spec`) would succeed on the second
trial; `generate_id` itself does return a 13-character string over the
62-character alphabet. -/
theorem c6_pseudo_id_allocation_code_bug :
    create_unique_pseudo_id (fun n => if n = 0 then ['A'] else ['B'])
      (fun _ s => s == ['A']) 10 = none ∧
    create_unique_pseudo_id_spec (fun n => if n = 0 then ['A'] else ['B'])
      (fun _ s => s == ['A']) 0 10 = some ['B'] ∧
    (generate_id (fun i => 7 * i + 3) 13).length = 13 ∧
    (∀ c ∈ generate_id (fun i => 7 * i + 3) 13, c ∈ generate_id_alphabet) ∧
    generate_id_alphabet.length = 62 := by
  refine ⟨?_, ?_, ?_, ?_, ?_⟩ <;> decide

/-!
## Per-slide error containment (`Pseudonymization.perform_case`)

The loop of `perform_case` (and likewise `perform_study`) is modelled on
an abstract filesystem of artifact ids.  The decisive control structure is
translated from the source: ONE `try` wraps the whole slide loop, the
`except` handler unlinks every accumulated clone path and escrow path, and
the registry commit happens once after the loop.
-/

/-- The abstract per-slide inputs of the `perform_case` loop: vendor
dispatch, label lookup, the artifact ids this slide creates (clone file,
escrow metadata blob, escrow label blob), whether its pseudo-data was
retrieved from the registry, and whether its label rewrite raises a
runtime error. -/
structure CaseSlide where
  vendor_aperio : Bool
  has_label : Bool
  clone : Nat
  meta_blob : Nat
  label_blob : Nat
  from_db : Bool
  replace_fails : Bool
  deriving Repr, DecidableEq

/-- The loop state of `perform_case`: the filesystem and the accumulator
lists `clone_paths`, `metadata_in_store_paths`, `file_in_store_paths`,
plus the clones of fully processed slides (the manifest content). -/
structure CaseState where
  fs : List Nat
  clone_paths : List Nat
  metadata_in_store_paths : List Nat
  file_in_store_paths : List Nat
  processed : List Nat
  deriving Repr, DecidableEq

/-- One iteration of the `perform_case` slide loop.  An unsupported vendor
or a missing label `continue`s; otherwise the clone is copied, and a
failing label rewrite raises (`Except.error` carries the state at the
raise); a slide not from the registry additionally writes its two escrow
blobs. -/
def perform_case_step (st : CaseState) (s : CaseSlide) : Except CaseState CaseState :=
  if s.vendor_aperio = false then Except.ok st
  else if s.has_label = false then Except.ok st
  else
    let st1 : CaseState := { st with
      fs := st.fs ++ [s.clone], clone_paths := st.clone_paths ++ [s.clone] }
    if s.replace_fails then Except.error st1
    else if s.from_db = false then
      Except.ok { st1 with
        fs := st1.fs ++ [s.meta_blob, s.label_blob],
        metadata_in_store_paths := st1.metadata_in_store_paths ++ [s.meta_blob],
        file_in_store_paths := st1.file_in_store_paths ++ [s.label_blob],
        processed := st1.processed ++ [s.clone] }
    else Except.ok { st1 with processed := st1.processed ++ [s.clone] }

/-- `Path(p).unlink()` over a list of paths. -/
def remove_paths (fs : List Nat) (paths : List Nat) : List Nat :=
  fs.filter (fun x => !(paths.contains x))

/-- `Pseudonymization.perform_case` on the abstract model: the slide loop
runs inside one `try`; on the first runtime error the `except` handler
unlinks all accumulated clone paths and escrow paths — of every slide of
the invocation — and returns `None` with the registry untouched; only
after the whole loop does the registry commit happen.  Result: (manifest,
filesystem, registry). -/
def perform_case (slides : List CaseSlide) (fs0 : List Nat) (registry0 : List Nat) :
    Option (List Nat) × List Nat × List Nat :=
  match slides.foldlM perform_case_step (⟨fs0, [], [], [], []⟩ : CaseState) with
  | Except.ok st => (some st.processed, st.fs, registry0 ++ st.processed)
  | Except.error st =>
    (none,
     remove_paths (remove_paths (remove_paths st.fs st.clone_paths)
       st.file_in_store_paths) st.metadata_in_store_paths,
     registry0)

/-- Modelled from the spec: the error containment §7 claims — "Runtime
errors abort the current slide, trigger rollback of its partially
committed artifacts (clone file, newly-written escrow blobs, uncommitted
registry state) ...; in case/study flows, the remaining slides continue",
and a failed slide "leaves the filesystem and registry in the
pre-operation state for that slide" only. -/
def perform_case_spec (slides : List CaseSlide) (fs0 : List Nat) (registry0 : List Nat) :
    Option (List Nat) × List Nat × List Nat :=
  let final := slides.foldl (fun (acc : List Nat × List Nat) s =>
    if s.vendor_aperio = false then acc
    else if s.has_label = false then acc
    else if s.replace_fails then acc
    else if s.from_db = false then
      (acc.1 ++ [s.clone, s.meta_blob, s.label_blob], acc.2 ++ [s.clone])
    else (acc.1 ++ [s.clone], acc.2 ++ [s.clone])) (fs0, [])
  (some final.2, final.1, registry0 ++ final.2)

/-- Counterexample to C7 as stated: in a two-slide case whose second slide
raises a runtime error, the code aborts the whole invocation — it returns
no manifest and deletes the first (successful) slide's clone and escrow
blobs as well — whereas the claimed behaviour (`perform_case_spec`) keeps
the first slide's artifacts, commits it, and reports it in the manifest. -/
theorem c7_error_containment_counterexample :
    perform_case
      [⟨true, true, 1, 2, 3, false, false⟩, ⟨true, true, 4, 5, 6, false, true⟩]
      [] [] = (none, [], []) ∧
    perform_case_spec
      [⟨true, true, 1, 2, 3, false, false⟩, ⟨true, true, 4, 5, 6, false, true⟩]
      [] [] = (some [1], [1, 2, 3], [1]) ∧
    perform_case
      [⟨true, true, 1, 2, 3, false, false⟩, ⟨true, true, 4, 5, 6, false, true⟩]
      [] [] ≠
    perform_case_spec
      [⟨true, true, 1, 2, 3, false, false⟩, ⟨true, true, 4, 5, 6, false, true⟩]
      [] [] := by
  refine ⟨?_, ?_, ?_⟩ <;> decide

/-- The loop invariant of `perform_case`: the filesystem is the initial
one plus created artifacts, every created artifact is recorded in one of
the three path accumulators, and no accumulated path collides with a
pre-existing file. -/
def CaseInv (fs0 : List Nat) (st : CaseState) : Prop :=
  ∃ extra, st.fs = fs0 ++ extra ∧
    (∀ x ∈ extra,
      x ∈ st.clone_paths ++ st.metadata_in_store_paths ++ st.file_in_store_paths) ∧
    (∀ x ∈ st.clone_paths ++ st.metadata_in_store_paths ++ st.file_in_store_paths,
      x ∉ fs0)

theorem perform_case_step_inv (fs0 : List Nat) (st : CaseState) (s : CaseSlide)
    (hdisj : s.clone ∉ fs0 ∧ s.meta_blob ∉ fs0 ∧ s.label_blob ∉ fs0)
    (hinv : CaseInv fs0 st) :
    (∀ st', perform_case_step st s = Except.ok st' → CaseInv fs0 st') ∧
    (∀ st', perform_case_step st s = Except.error st' → CaseInv fs0 st') := by
  obtain ⟨extra, hfs, hmem, hfree⟩ := hinv
  unfold perform_case_step
  by_cases hv : s.vendor_aperio = false
  · rw [if_pos hv]
    constructor
    · intro st' h
      cases h
      exact ⟨extra, hfs, hmem, hfree⟩
    · intro st' h
      cases h
  · rw [if_neg hv]
    by_cases hl : s.has_label = false
    · rw [if_pos hl]
      constructor
      · intro st' h
        cases h
        exact ⟨extra, hfs, hmem, hfree⟩
      · intro st' h
        cases h
    · rw [if_neg hl]
      have hinv1 : CaseInv fs0 { st with
          fs := st.fs ++ [s.clone], clone_paths := st.clone_paths ++ [s.clone] } := by
        refine ⟨extra ++ [s.clone], by rw [hfs, List.append_assoc], ?_, ?_⟩
        · intro x hx
          simp only [List.mem_append, List.mem_singleton] at hx ⊢
          rcases hx with hx | hx
          · have := hmem x hx
            simp only [List.mem_append] at this
            tauto
          · tauto
        · intro x hx
          simp only [List.mem_append, List.mem_singleton] at hx
          rcases hx with ((hx | hx) | hx) | hx
          · exact hfree x (by simp [hx])
          · exact hx ▸ hdisj.1
          · exact hfree x (by simp [hx])
          · exact hfree x (by simp [hx])
      by_cases hr : s.replace_fails = true
      · rw [if_pos hr]
        constructor
        · intro st' h
          cases h
        · intro st' h
          cases h
          exact hinv1
      · rw [if_neg hr]
        obtain ⟨extra1, hfs1, hmem1, hfree1⟩ := hinv1
        by_cases hd : s.from_db = false
        · rw [if_pos hd]
          refine ⟨fun st' h => ?_, fun st' h => by cases h⟩
          cases h
          refine ⟨extra1 ++ [s.meta_blob, s.label_blob],
            by simp only at hfs1 ⊢; rw [hfs1, List.append_assoc], ?_, ?_⟩
          · intro x hx
            simp only [List.mem_append, List.mem_cons, List.mem_singleton,
              List.not_mem_nil, or_false] at hx ⊢
            rcases hx with hx | hx
            · have := hmem1 x hx
              simp only [List.mem_append, List.mem_singleton] at this
              tauto
            · tauto
          · intro x hx
            simp only [List.mem_append, List.mem_cons, List.mem_singleton,
              List.not_mem_nil, or_false] at hx
            rcases hx with ((hx | hx) | (hx | hx)) | (hx | hx)
            · exact hfree1 x (by simp only [List.mem_append, List.mem_singleton]; tauto)
            · exact hx ▸ hdisj.1
            · exact hfree1 x (by simp only [List.mem_append, List.mem_singleton]; tauto)
            · exact hx ▸ hdisj.2.1
            · exact hfree1 x (by simp only [List.mem_append, List.mem_singleton]; tauto)
            · exact hx ▸ hdisj.2.2
        · rw [if_neg hd]
          refine ⟨fun st' h => ?_, fun st' h => by cases h⟩
          cases h
          exact ⟨extra1, hfs1, hmem1, hfree1⟩

theorem except_ok_bind {e a b : Type} (x : a) (k : a → Except e b) :
    (Except.ok x >>= k) = k x := rfl

theorem except_error_bind {e a b : Type} (x : e) (k : a → Except e b) :
    (Except.error x >>= k) = (Except.error x : Except e b) := rfl

theorem perform_case_fold_inv (slides : List CaseSlide) (fs0 : List Nat)
    (st : CaseState)
    (hdisj : ∀ s ∈ slides, s.clone ∉ fs0 ∧ s.meta_blob ∉ fs0 ∧ s.label_blob ∉ fs0)
    (hinv : CaseInv fs0 st) :
    (∀ st', slides.foldlM perform_case_step st = Except.ok st' → CaseInv fs0 st') ∧
    (∀ st', slides.foldlM perform_case_step st = Except.error st' → CaseInv fs0 st') := by
  induction slides generalizing st with
  | nil =>
    refine ⟨fun st' h => ?_, fun st' h => ?_⟩
    · cases h
      exact hinv
    · cases h
  | cons s ss ih =>
    obtain ⟨hok, herr⟩ := perform_case_step_inv fs0 st s (hdisj s (by simp)) hinv
    cases hstep : perform_case_step st s with
    | ok st1 =>
      have h1 : CaseInv fs0 st1 := hok st1 hstep
      have := ih st1 (fun x hx => hdisj x (by simp [hx])) h1
      refine ⟨fun st' h => ?_, fun st' h => ?_⟩
      · rw [List.foldlM_cons, hstep] at h
        exact this.1 st' h
      · rw [List.foldlM_cons, hstep] at h
        exact this.2 st' h
    | error st1 =>
      refine ⟨fun st' h => ?_, fun st' h => ?_⟩
      · rw [List.foldlM_cons, hstep, except_error_bind] at h
        cases h
      · rw [List.foldlM_cons, hstep, except_error_bind] at h
        cases h
        exact herr _ hstep

theorem remove_paths_of_inv (fs0 : List Nat) (st : CaseState)
    (hinv : CaseInv fs0 st) :
    remove_paths (remove_paths (remove_paths st.fs st.clone_paths)
      st.file_in_store_paths) st.metadata_in_store_paths = fs0 := by
  obtain ⟨extra, hfs, hmem, hfree⟩ := hinv
  rw [hfs]
  simp only [remove_paths, List.filter_append]
  have hkeep : ∀ paths : List Nat,
      (∀ x ∈ paths,
        x ∈ st.clone_paths ++ st.metadata_in_store_paths ++ st.file_in_store_paths) →
      fs0.filter (fun x => !(paths.contains x)) = fs0 := by
    intro paths hsub
    apply List.filter_eq_self.mpr
    intro x hx
    have : x ∉ paths := fun hc => hfree x (hsub x hc) hx
    simpa using this
  have hsubC : ∀ x ∈ st.clone_paths,
      x ∈ st.clone_paths ++ st.metadata_in_store_paths ++ st.file_in_store_paths := by
    intro x hx
    simp only [List.mem_append]
    tauto
  have hsubF : ∀ x ∈ st.file_in_store_paths,
      x ∈ st.clone_paths ++ st.metadata_in_store_paths ++ st.file_in_store_paths := by
    intro x hx
    simp only [List.mem_append]
    tauto
  have hsubM : ∀ x ∈ st.metadata_in_store_paths,
      x ∈ st.clone_paths ++ st.metadata_in_store_paths ++ st.file_in_store_paths := by
    intro x hx
    simp only [List.mem_append]
    tauto
  have hextra : ((extra.filter (fun x => !(st.clone_paths.contains x))).filter
      (fun x => !(st.file_in_store_paths.contains x))).filter
      (fun x => !(st.metadata_in_store_paths.contains x)) = [] := by
    rw [List.eq_nil_iff_forall_not_mem]
    intro x hx
    simp only [List.mem_filter] at hx
    obtain ⟨⟨⟨hxe, hC⟩, hF⟩, hM⟩ := hx
    have hCm : x ∉ st.clone_paths := by simpa using hC
    have hFm : x ∉ st.file_in_store_paths := by simpa using hF
    have hMm : x ∉ st.metadata_in_store_paths := by simpa using hM
    have := hmem x hxe
    simp only [List.mem_append] at this
    tauto
  rw [hkeep st.clone_paths hsubC, hkeep st.file_in_store_paths hsubF,
    hkeep st.metadata_in_store_paths hsubM, hextra, List.append_nil]

theorem perform_case_fold_ok (slides : List CaseSlide) (st : CaseState)
    (hgood : ∀ s ∈ slides, s.vendor_aperio = true → s.has_label = true →
      s.replace_fails = false) :
    ∃ st', slides.foldlM perform_case_step st = Except.ok st' ∧
      st'.processed = st.processed ++
        (slides.filter (fun s => s.vendor_aperio && s.has_label)).map
          (fun s => s.clone) := by
  induction slides generalizing st with
  | nil => exact ⟨st, rfl, by simp⟩
  | cons s ss ih =>
    have hgs := hgood s (by simp)
    by_cases hv : s.vendor_aperio = false
    · have hstep : perform_case_step st s = Except.ok st := by
        unfold perform_case_step
        rw [if_pos hv]
      obtain ⟨st', hfold, hproc⟩ := ih st (fun x hx => hgood x (by simp [hx]))
      refine ⟨st', ?_, ?_⟩
      · rw [List.foldlM_cons, hstep]
        exact hfold
      · rw [hproc, List.filter_cons_of_neg (by simp [hv])]
    · by_cases hl : s.has_label = false
      · have hstep : perform_case_step st s = Except.ok st := by
          unfold perform_case_step
          rw [if_neg hv, if_pos hl]
        obtain ⟨st', hfold, hproc⟩ := ih st (fun x hx => hgood x (by simp [hx]))
        refine ⟨st', ?_, ?_⟩
        · rw [List.foldlM_cons, hstep]
          exact hfold
        · rw [hproc, List.filter_cons_of_neg (by simp [hl])]
      · have hvt : s.vendor_aperio = true := by
          cases hva : s.vendor_aperio
          · exact absurd hva hv
          · rfl
        have hlt : s.has_label = true := by
          cases hla : s.has_label
          · exact absurd hla hl
          · rfl
        have hrf : s.replace_fails = false := hgs hvt hlt
        by_cases hd : s.from_db = false
        · have hstep : perform_case_step st s = Except.ok { st with
              fs := st.fs ++ [s.clone] ++ [s.meta_blob, s.label_blob],
              clone_paths := st.clone_paths ++ [s.clone],
              metadata_in_store_paths := st.metadata_in_store_paths ++ [s.meta_blob],
              file_in_store_paths := st.file_in_store_paths ++ [s.label_blob],
              processed := st.processed ++ [s.clone] } := by
            unfold perform_case_step
            rw [if_neg hv, if_neg hl, if_neg (by simp [hrf]), if_pos hd]
          obtain ⟨st', hfold, hproc⟩ := ih _ (fun x hx => hgood x (by simp [hx]))
          refine ⟨st', ?_, ?_⟩
          · rw [List.foldlM_cons, hstep]
            exact hfold
          · rw [hproc, List.filter_cons_of_pos (by simp [hvt, hlt]), List.map_cons]
            simp [List.append_assoc]
        · have hstep : perform_case_step st s = Except.ok { st with
              fs := st.fs ++ [s.clone],
              clone_paths := st.clone_paths ++ [s.clone],
              processed := st.processed ++ [s.clone] } := by
            unfold perform_case_step
            rw [if_neg hv, if_neg hl, if_neg (by simp [hrf]), if_neg hd]
          obtain ⟨st', hfold, hproc⟩ := ih _ (fun x hx => hgood x (by simp [hx]))
          refine ⟨st', ?_, ?_⟩
          · rw [List.foldlM_cons, hstep]
            exact hfold
          · rw [hproc, List.filter_cons_of_pos (by simp [hvt, hlt]), List.map_cons]
            simp [List.append_assoc]

theorem perform_case_of_error (slides : List CaseSlide) (fs0 reg0 : List Nat)
    (st : CaseState)
    (h : slides.foldlM perform_case_step (⟨fs0, [], [], [], []⟩ : CaseState) =
      Except.error st) :
    perform_case slides fs0 reg0 =
      (none, remove_paths (remove_paths (remove_paths st.fs st.clone_paths)
        st.file_in_store_paths) st.metadata_in_store_paths, reg0) := by
  unfold perform_case
  rw [h]

theorem perform_case_of_ok (slides : List CaseSlide) (fs0 reg0 : List Nat)
    (st : CaseState)
    (h : slides.foldlM perform_case_step (⟨fs0, [], [], [], []⟩ : CaseState) =
      Except.ok st) :
    perform_case slides fs0 reg0 =
      (some st.processed, st.fs, reg0 ++ st.processed) := by
  unfold perform_case
  rw [h]

/-- C7 as amended: a runtime error during any slide's processing aborts
the entire case invocation — no manifest is produced, the rollback deletes
every clone file and escrow blob created so far in the invocation (for all
its slides, returning the filesystem to the pre-invocation state), and the
registry commit never happens; slides with an unsupported vendor or a
missing label are merely skipped; when no processed slide fails, all
non-skipped slides complete, their artifacts persist and they are
committed to the registry. -/
theorem c7_error_containment_amended (slides : List CaseSlide) (fs0 reg0 : List Nat)
    (hdisj : ∀ s ∈ slides, s.clone ∉ fs0 ∧ s.meta_blob ∉ fs0 ∧ s.label_blob ∉ fs0) :
    ((∃ st, slides.foldlM perform_case_step (⟨fs0, [], [], [], []⟩ : CaseState) =
        Except.error st) →
      perform_case slides fs0 reg0 = (none, fs0, reg0)) ∧
    ((∀ s ∈ slides, s.vendor_aperio = true → s.has_label = true →
        s.replace_fails = false) →
      ∃ st, slides.foldlM perform_case_step (⟨fs0, [], [], [], []⟩ : CaseState) =
          Except.ok st ∧
        perform_case slides fs0 reg0 =
          (some st.processed, st.fs, reg0 ++ st.processed) ∧
        st.processed = (slides.filter (fun s => s.vendor_aperio && s.has_label)).map
          (fun s => s.clone)) := by
  have hinv0 : CaseInv fs0 (⟨fs0, [], [], [], []⟩ : CaseState) :=
    ⟨[], by simp, by simp, by simp⟩
  constructor
  · rintro ⟨st, hst⟩
    have hinv := (perform_case_fold_inv slides fs0 _ hdisj hinv0).2 st hst
    rw [perform_case_of_error slides fs0 reg0 st hst,
      remove_paths_of_inv fs0 st hinv]
  · intro hgood
    obtain ⟨st', hfold, hproc⟩ := perform_case_fold_ok slides _ hgood
    exact ⟨st', hfold, perform_case_of_ok slides fs0 reg0 st' hfold,
      by simpa using hproc⟩

/-- Witness for the amended C7: the two-slide case of the counterexample,
run over a filesystem holding file 9 and a registry holding id 7, rolls
everything back. -/
theorem c7_error_containment_amended_witness :
    (∀ s ∈ [(⟨true, true, 1, 2, 3, false, false⟩ : CaseSlide),
        ⟨true, true, 4, 5, 6, false, true⟩],
      s.clone ∉ [9] ∧ s.meta_blob ∉ [9] ∧ s.label_blob ∉ [9]) ∧
    perform_case
      [⟨true, true, 1, 2, 3, false, false⟩, ⟨true, true, 4, 5, 6, false, true⟩]
      [9] [7] = (none, [9], [7]) := by
  refine ⟨by decide, ?_⟩
  exact (c7_error_containment_amended
    [⟨true, true, 1, 2, 3, false, false⟩, ⟨true, true, 4, 5, 6, false, true⟩]
    [9] [7] (by decide)).1 ⟨_, rfl⟩

/-!
## Round trip: escrow capture and the back-up (de-pseudonymization) writers
-/

/-- The image escrow dict built by `Pseudonymization.save_image_data_to_store`:
`data_byte_counts`, `data_offsets`, `compression` and the raw strip bytes. -/
structure ImageEscrow where
  data_byte_counts : List Nat
  data_offsets : List Nat
  compression : Nat
  data : List Nat
  deriving Repr, DecidableEq

/-- The read loop of `SubImage.get_image_data`: after one seek, one
`f.read(count)` per strip byte count, each read advancing the position. -/
def read_chunks (file : List Nat) : Nat → List Nat → List Nat
  | _, [] => []
  | pos, c :: cs => (file.drop pos).take c ++ read_chunks file (pos + c) cs

/-- `SubImage.get_image_data`: seek to the first strip offset
(`data_offsets[0]`, which raises on an empty list — callers guarantee a
non-empty list), then read each strip's byte count in sequence. -/
def get_image_data (file : List Nat) (data_offsets data_byte_counts : List Nat) :
    List Nat :=
  read_chunks file (data_offsets.headD 0) data_byte_counts

/-- The backup dict of `Pseudonymization.save_image_data_to_store`, captured
from the original slide before pseudonymization (the `SubImage` fields come
from the label IFD). -/
def save_image_data_to_store (file : List Nat) (ifd : TiffIFD) : ImageEscrow :=
  ⟨ifd.databytecounts, ifd.dataoffsets, ifd.compression,
    get_image_data file ifd.dataoffsets ifd.databytecounts⟩

/-- The per-record escrow dict of `generate_metadata_svs`: the description
tag's `count`, `valueoffset` and string value (the `page_index` and `shape`
fields only select and validate the page and are modelled away in this
single-page development). -/
structure MetaEscrow where
  count : Nat
  value_offset : Nat
  value : List Nat
  deriving Repr, DecidableEq

/-- The `origin_data` record that `generate_metadata_svs` saves for the
description tag. -/
def meta_escrow_of_tag (tag : DescriptionTag) : MetaEscrow :=
  ⟨tag.count, tag.valueoffset, tag.description⟩

/-- One iteration of the `Pseudonymization.back_up_metadata_svs` loop: wipe
the current (pseudonymous) description with `"".ljust(count)` spaces at the
current value-offset, write the original count at `offset + 4` and the
original value-offset right after it (`offset + 8`), then write the original
description at its original value-offset.  `tag_offset`, `cur_count` and
`cur_valueoffset` are the entry offset, count and value-offset of tag 270 as
re-parsed from the pseudonymized file. -/
def back_up_metadata_one (file : List Nat) (tag_offset cur_count cur_valueoffset : Nat)
    (m : MetaEscrow) (big_endian : Bool) : Option (List Nat) :=
  let f1 := writeAt file cur_valueoffset (ljust [] cur_count)
  (int_to_bytes (m.count : Int) 4 big_endian).bind (fun cb =>
    (int_to_bytes (m.value_offset : Int) 4 big_endian).bind (fun vb =>
      some (writeAt (writeSeq f1 (tag_offset + 4) [cb, vb]) m.value_offset m.value)))

/-- `Pseudonymization.back_up_metadata_svs`: byte order from the header
marker, then each escrowed record restored in order.  Each list entry
carries the re-parsed current state of the description tag (entry offset,
count, value-offset) together with the escrowed original record. -/
def back_up_metadata_svs (file : List Nat)
    (records : List (Nat × Nat × Nat × MetaEscrow)) : Option (List Nat) :=
  records.foldlM
    (fun f r => back_up_metadata_one f r.1 r.2.1 r.2.2.1 r.2.2.2
      (is_big_endian_file file)) file

/-- `pseudonymisation_utils.back_up_image_svs` on the byte model: wipe the
current (pseudonymous) strip region with zeros, write the escrowed
compression into tag 259's value slot, the escrowed byte counts into tag
279's slot, the escrowed offsets into tag 273's slot, then write the
escrowed strip bytes at the first escrowed data offset.  `ifd` is the label
IFD re-parsed from the pseudonymized file; a `none` models the exception
path (`IndexError` on an empty offset list). -/
def back_up_image_svs (file : List Nat) (image_data : ImageEscrow) (ifd : TiffIFD) :
    Option (List Nat) :=
  if ifd.dataoffsets = [] then none
  else if image_data.data_offsets = [] then none
  else
    let big_endian := is_big_endian_file file
    let f1 := writeAt file (ifd.dataoffsets.headD 0)
      (List.replicate ifd.databytecounts.sum 0)
    (int_to_bytes (image_data.compression : Int) 4 big_endian).bind (fun compb =>
      let f2 := writeAt f1 ifd.tag259_valueoffset compb
      (image_data.data_byte_counts.mapM
          (fun c : Nat => int_to_bytes (c : Int) 4 big_endian)).bind (fun cbs =>
        let f3 := writeSeq f2 ifd.tag279_valueoffset cbs
        (image_data.data_offsets.mapM
            (fun o : Nat => int_to_bytes (o : Int) 4 big_endian)).bind (fun obs =>
          let f4 := writeSeq f3 ifd.tag273_valueoffset obs
          some (writeAt f4 (image_data.data_offsets.headD 0) image_data.data))))

theorem read_chunks_eq (file : List Nat) (pos : Nat) (cs : List Nat) :
    read_chunks file pos cs = (file.drop pos).take cs.sum := by
  induction cs generalizing pos with
  | nil => simp [read_chunks]
  | cons c cs ih =>
    simp only [read_chunks, List.sum_cons, ih]
    rw [List.take_add, List.drop_drop]

theorem seg_getElem (file : List Nat) (a n b : Nat) (hb : b < n) :
    ((file.drop a).take n)[b]? = file[a + b]? := by
  rw [List.getElem?_take_of_lt hb, List.getElem?_drop]

theorem take_two_ext (f g : List Nat) (h0 : g[0]? = f[0]?) (h1 : g[1]? = f[1]?) :
    g.take 2 = f.take 2 := by
  apply List.ext_getElem?
  intro i
  match i with
  | 0 => rw [List.getElem?_take_of_lt (by omega), List.getElem?_take_of_lt (by omega), h0]
  | 1 => rw [List.getElem?_take_of_lt (by omega), List.getElem?_take_of_lt (by omega), h1]
  | (n + 2) =>
    have hg : (g.take 2).length ≤ n + 2 := by
      simp only [List.length_take]
      omega
    have hf : (f.take 2).length ≤ n + 2 := by
      simp only [List.length_take]
      omega
    rw [List.getElem?_eq_none hg, List.getElem?_eq_none hf]

theorem is_big_endian_congr (f g : List Nat) (h0 : g[0]? = f[0]?) (h1 : g[1]? = f[1]?) :
    is_big_endian_file g = is_big_endian_file f := by
  unfold is_big_endian_file
  rw [take_two_ext f g h0 h1]

theorem write2_chain_getElem (f d1 d2 : List Nat) (a b : Nat)
    (ha : a + d1.length ≤ f.length) (hb : b + d2.length ≤ f.length) (j : Nat) :
    (writeAt (writeAt f a d1) b d2)[j]? =
      if b ≤ j ∧ j < b + d2.length then d2[j - b]?
      else if a ≤ j ∧ j < a + d1.length then d1[j - a]?
      else f[j]? := by
  have hlen1 : (writeAt f a d1).length = f.length := writeAt_length_of_le _ _ _ ha
  have hb1 : ∀ i, (writeAt f a d1)[i]? =
      if a ≤ i ∧ i < a + d1.length then d1[i - a]? else f[i]? := by
    intro i
    rw [writeAt_getElem _ _ _ i (by omega)]
    split_ifs <;> first | rfl | omega | (exfalso; omega)
  rw [writeAt_getElem _ _ _ j (by omega)]
  simp only [hb1]
  split_ifs <;> first | rfl | omega | (exfalso; omega)

theorem meta_restore_chain_getElem (f : List Nat) (cvo cnt do4 vo : Nat)
    (cbvb value : List Nat)
    (hcvo : cvo + cnt ≤ f.length)
    (hdo : do4 + cbvb.length ≤ f.length) (hvo : vo + value.length ≤ f.length)
    (j : Nat) :
    (writeAt (writeAt (writeAt f cvo (List.replicate cnt 32)) do4 cbvb) vo value)[j]? =
      if vo ≤ j ∧ j < vo + value.length then value[j - vo]?
      else if do4 ≤ j ∧ j < do4 + cbvb.length then cbvb[j - do4]?
      else if cvo ≤ j ∧ j < cvo + cnt then some 32
      else f[j]? := by
  have hlen1 : (writeAt f cvo (List.replicate cnt 32)).length = f.length := by
    apply writeAt_length_of_le
    simpa using hcvo
  have hb1 : ∀ i, (writeAt f cvo (List.replicate cnt 32))[i]? =
      if cvo ≤ i ∧ i < cvo + cnt then some 32 else f[i]? := by
    intro i
    rw [writeAt_getElem _ _ _ i (by omega), List.length_replicate]
    split_ifs <;>
      first
        | rfl
        | omega
        | (rw [List.getElem?_replicate, if_pos (by omega)])
        | (exfalso; omega)
  have hlen2 : (writeAt (writeAt f cvo (List.replicate cnt 32)) do4 cbvb).length =
      f.length := by
    rw [writeAt_length_of_le _ _ _ (by omega)]
    exact hlen1
  have hb2 : ∀ i, (writeAt (writeAt f cvo (List.replicate cnt 32)) do4 cbvb)[i]? =
      if do4 ≤ i ∧ i < do4 + cbvb.length then cbvb[i - do4]?
      else if cvo ≤ i ∧ i < cvo + cnt then some 32
      else f[i]? := by
    intro i
    rw [writeAt_getElem _ _ _ i (by omega)]
    simp only [hb1]
    split_ifs <;> first | rfl | omega | (exfalso; omega)
  rw [writeAt_getElem _ _ _ j (by omega)]
  simp only [hb2]
  split_ifs <;> first | rfl | omega | (exfalso; omega)

set_option maxHeartbeats 1600000 in
theorem image_restore_chain_getElem (f : List Nat) (o0 Dw t259 t279 t273 off0 : Nat)
    (compB cF0 oF0 data0 : List Nat)
    (ho0 : o0 + Dw ≤ f.length) (h259 : t259 + compB.length ≤ f.length)
    (h279 : t279 + cF0.length ≤ f.length) (h273 : t273 + oF0.length ≤ f.length)
    (hoff : off0 + data0.length ≤ f.length) (j : Nat) :
    (writeAt (writeAt (writeAt (writeAt (writeAt f o0 (List.replicate Dw 0)) t259 compB)
        t279 cF0) t273 oF0) off0 data0)[j]? =
      if off0 ≤ j ∧ j < off0 + data0.length then data0[j - off0]?
      else if t273 ≤ j ∧ j < t273 + oF0.length then oF0[j - t273]?
      else if t279 ≤ j ∧ j < t279 + cF0.length then cF0[j - t279]?
      else if t259 ≤ j ∧ j < t259 + compB.length then compB[j - t259]?
      else if o0 ≤ j ∧ j < o0 + Dw then some 0
      else f[j]? := by
  have hlen1 : (writeAt f o0 (List.replicate Dw 0)).length = f.length := by
    apply writeAt_length_of_le
    simpa using ho0
  have hb1 : ∀ i, (writeAt f o0 (List.replicate Dw 0))[i]? =
      if o0 ≤ i ∧ i < o0 + Dw then some 0 else f[i]? := by
    intro i
    rw [writeAt_getElem _ _ _ i (by omega), List.length_replicate]
    split_ifs <;>
      first
        | rfl
        | omega
        | (rw [List.getElem?_replicate, if_pos (by omega)])
        | (exfalso; omega)
  have hlen2 : (writeAt (writeAt f o0 (List.replicate Dw 0)) t259 compB).length =
      f.length := by
    rw [writeAt_length_of_le _ _ _ (by omega)]
    exact hlen1
  have hb2 : ∀ i, (writeAt (writeAt f o0 (List.replicate Dw 0)) t259 compB)[i]? =
      if t259 ≤ i ∧ i < t259 + compB.length then compB[i - t259]?
      else if o0 ≤ i ∧ i < o0 + Dw then some 0
      else f[i]? := by
    intro i
    rw [writeAt_getElem _ _ _ i (by omega)]
    simp only [hb1]
    split_ifs <;> first | rfl | omega | (exfalso; omega)
  have hlen3 : (writeAt (writeAt (writeAt f o0 (List.replicate Dw 0)) t259 compB)
      t279 cF0).length = f.length := by
    rw [writeAt_length_of_le _ _ _ (by omega)]
    exact hlen2
  have hb3 : ∀ i, (writeAt (writeAt (writeAt f o0 (List.replicate Dw 0)) t259 compB)
      t279 cF0)[i]? =
      if t279 ≤ i ∧ i < t279 + cF0.length then cF0[i - t279]?
      else if t259 ≤ i ∧ i < t259 + compB.length then compB[i - t259]?
      else if o0 ≤ i ∧ i < o0 + Dw then some 0
      else f[i]? := by
    intro i
    rw [writeAt_getElem _ _ _ i (by omega)]
    simp only [hb2]
    split_ifs <;> first | rfl | omega | (exfalso; omega)
  have hlen4 : (writeAt (writeAt (writeAt (writeAt f o0 (List.replicate Dw 0)) t259 compB)
      t279 cF0) t273 oF0).length = f.length := by
    rw [writeAt_length_of_le _ _ _ (by omega)]
    exact hlen3
  have hb4 : ∀ i, (writeAt (writeAt (writeAt (writeAt f o0 (List.replicate Dw 0))
      t259 compB) t279 cF0) t273 oF0)[i]? =
      if t273 ≤ i ∧ i < t273 + oF0.length then oF0[i - t273]?
      else if t279 ≤ i ∧ i < t279 + cF0.length then cF0[i - t279]?
      else if t259 ≤ i ∧ i < t259 + compB.length then compB[i - t259]?
      else if o0 ≤ i ∧ i < o0 + Dw then some 0
      else f[i]? := by
    intro i
    rw [writeAt_getElem _ _ _ i (by omega)]
    simp only [hb3]
    split_ifs <;> first | rfl | omega | (exfalso; omega)
  rw [writeAt_getElem _ _ _ j (by omega)]
  simp only [hb4]
  split_ifs <;> first | rfl | omega | (exfalso; omega)

theorem ljust_nil (n : Nat) : ljust [] n = List.replicate n 32 := by
  simp [ljust]

theorem replace_description_one_pad_eq (f : List Nat) (tag : DescriptionTag)
    (m : List Nat) (be : Bool)
    (hpad : m.length < tag.description.length) (hm : m.length < 2147483648) :
    replace_description_one f tag m be =
      some (writeAt (writeAt f (tag.offset + 4)
        (int_to_bytes_tc (m.length : Int) 4 be)) tag.valueoffset (ljust m tag.count)) := by
  have hlb : int_to_bytes ((m.length : Nat) : Int) 4 be =
      some (int_to_bytes_tc ((m.length : Nat) : Int) 4 be) :=
    int_to_bytes_eq_some _ _ (by omega) (by omega)
  simp only [replace_description_one, hlb, Option.bind_eq_bind, Option.some_bind]
  rw [if_pos (show tag.description.length > m.length by omega)]

theorem replace_description_one_app_eq (f : List Nat) (tag : DescriptionTag)
    (m : List Nat) (be : Bool)
    (happ : tag.description.length ≤ m.length) (hm : m.length < 2147483648)
    (h1 : tag.offset + 8 ≤ f.length) (h2 : tag.valueoffset + tag.count ≤ f.length)
    (hflen : f.length < 2147483648) :
    replace_description_one f tag m be =
      some (writeAt
        ((writeAt (writeAt f (tag.offset + 4) (int_to_bytes_tc (m.length : Int) 4 be))
          tag.valueoffset (List.replicate tag.count 32)) ++ m)
        (tag.offset + 8) (int_to_bytes_tc (f.length : Int) 4 be)) := by
  have hlb : int_to_bytes ((m.length : Nat) : Int) 4 be =
      some (int_to_bytes_tc ((m.length : Nat) : Int) 4 be) :=
    int_to_bytes_eq_some _ _ (by omega) (by omega)
  have hl1 : (writeAt f (tag.offset + 4)
      (int_to_bytes_tc (m.length : Int) 4 be)).length = f.length := by
    rw [writeAt_length_of_le _ _ _ (by rw [int_to_bytes_tc_length]; omega)]
  have hl2 : (writeAt (writeAt f (tag.offset + 4) (int_to_bytes_tc (m.length : Int) 4 be))
      tag.valueoffset (List.replicate tag.count 32)).length = f.length := by
    rw [writeAt_length_of_le _ _ _ (by rw [List.length_replicate, hl1]; omega)]
    exact hl1
  have hob : int_to_bytes (((writeAt (writeAt f (tag.offset + 4)
      (int_to_bytes_tc (m.length : Int) 4 be)) tag.valueoffset
      (List.replicate tag.count 32)).length : Int)) 4 be =
      some (int_to_bytes_tc ((f.length : Int)) 4 be) := by
    rw [hl2]
    exact int_to_bytes_eq_some _ _ (by omega) (by omega)
  simp only [replace_description_one, hlb, Option.bind_eq_bind, Option.some_bind]
  rw [if_neg (show ¬ tag.description.length > m.length by omega), hob,
    Option.some_bind]

theorem back_up_metadata_one_eq (file : List Nat) (d cnt cvo : Nat) (m : MetaEscrow)
    (be : Bool)
    (hcv : cvo + cnt ≤ file.length) (hdo : d + 12 ≤ file.length)
    (hc31 : m.count < 2147483648) (hv31 : m.value_offset < 2147483648) :
    back_up_metadata_one file d cnt cvo m be =
      some (writeAt (writeAt (writeAt file cvo (List.replicate cnt 32)) (d + 4)
        (int_to_bytes_tc (m.count : Int) 4 be ++
          int_to_bytes_tc (m.value_offset : Int) 4 be))
        m.value_offset m.value) := by
  have hf1 : (writeAt file cvo (ljust [] cnt)).length = file.length := by
    apply writeAt_length_of_le
    simp only [ljust_nil, List.length_replicate]
    omega
  simp only [back_up_metadata_one,
    int_to_bytes_eq_some ((m.count : Nat) : Int) be (by omega) (by omega),
    int_to_bytes_eq_some ((m.value_offset : Nat) : Int) be (by omega) (by omega),
    Option.some_bind]
  rw [writeSeq_eq _ _ _ (by rw [hf1]; omega), ljust_nil]
  simp [List.flatten_cons]

theorem back_up_image_svs_eq (file : List Nat) (img : ImageEscrow) (ifd : TiffIFD)
    (hne : ifd.dataoffsets ≠ []) (hne2 : img.data_offsets ≠ [])
    (hw : ifd.dataoffsets.headD 0 + ifd.databytecounts.sum ≤ file.length)
    (h259 : ifd.tag259_valueoffset + 4 ≤ file.length)
    (h279 : ifd.tag279_valueoffset + 4 * img.data_byte_counts.length ≤ file.length)
    (h273 : ifd.tag273_valueoffset ≤ file.length)
    (hcomp : img.compression < 2147483648)
    (hc : ∀ c ∈ img.data_byte_counts, c < 2147483648)
    (ho : ∀ o ∈ img.data_offsets, o < 2147483648) :
    back_up_image_svs file img ifd =
      some (writeAt (writeAt (writeAt (writeAt
        (writeAt file (ifd.dataoffsets.headD 0)
          (List.replicate ifd.databytecounts.sum 0))
        ifd.tag259_valueoffset
        (int_to_bytes_tc (img.compression : Int) 4 (is_big_endian_file file)))
        ifd.tag279_valueoffset
        ((img.data_byte_counts.map
          (fun c : Nat => int_to_bytes_tc (c : Int) 4 (is_big_endian_file file))).flatten))
        ifd.tag273_valueoffset
        ((img.data_offsets.map
          (fun o : Nat => int_to_bytes_tc (o : Int) 4 (is_big_endian_file file))).flatten))
        (img.data_offsets.headD 0) img.data) := by
  have hlen1 : (writeAt file (ifd.dataoffsets.headD 0)
      (List.replicate ifd.databytecounts.sum 0)).length = file.length := by
    apply writeAt_length_of_le
    simpa using hw
  have hlen2 : (writeAt (writeAt file (ifd.dataoffsets.headD 0)
      (List.replicate ifd.databytecounts.sum 0)) ifd.tag259_valueoffset
      (int_to_bytes_tc (img.compression : Int) 4 (is_big_endian_file file))).length =
      file.length := by
    rw [writeAt_length_of_le _ _ _ (by rw [hlen1, int_to_bytes_tc_length]; omega)]
    exact hlen1
  have hcntlen : ((img.data_byte_counts.map
      (fun c : Nat =>
        int_to_bytes_tc (c : Int) 4 (is_big_endian_file file))).flatten).length =
      4 * img.data_byte_counts.length := by
    rw [flatten_map_tc_length]
  have hlen3 : (writeAt (writeAt (writeAt file (ifd.dataoffsets.headD 0)
      (List.replicate ifd.databytecounts.sum 0)) ifd.tag259_valueoffset
      (int_to_bytes_tc (img.compression : Int) 4 (is_big_endian_file file)))
      ifd.tag279_valueoffset
      ((img.data_byte_counts.map
        (fun c : Nat =>
          int_to_bytes_tc (c : Int) 4 (is_big_endian_file file))).flatten)).length =
      file.length := by
    rw [writeAt_length_of_le _ _ _ (by rw [hlen2, hcntlen]; omega)]
    exact hlen2
  simp only [back_up_image_svs, if_neg hne, if_neg hne2,
    int_to_bytes_eq_some ((img.compression : Nat) : Int) (is_big_endian_file file)
      (by omega) (by omega),
    mapM_int_to_bytes _ _ hc, mapM_int_to_bytes _ _ ho, Option.some_bind]
  rw [writeSeq_eq (img.data_byte_counts.map
      (fun c : Nat => int_to_bytes_tc (c : Int) 4 (is_big_endian_file file))) _ _
      (by rw [hlen2]; omega),
    writeSeq_eq (img.data_offsets.map
      (fun o : Nat => int_to_bytes_tc (o : Int) 4 (is_big_endian_file file))) _ _
      (by rw [hlen3]; omega)]

/-- Structural well-formedness of an original slide file for the
round trip: the strip region, the three image tag value slots, the
description tag entry and the description value region lie inside the file
and start at or after the 2-byte header; the offset and count lists agree
in length; the description tag's `count` equals its value's length; and
the stored integers fit 4 signed bytes. -/
def C1WF (file : List Nat) (ifd : TiffIFD) (tag : DescriptionTag) : Prop :=
  ifd.dataoffsets ≠ [] ∧
  ifd.dataoffsets.length = ifd.databytecounts.length ∧
  ifd.dataoffsets.headD 0 + ifd.databytecounts.sum ≤ file.length ∧
  ifd.tag259_valueoffset + 4 ≤ file.length ∧
  ifd.tag279_valueoffset + 4 * ifd.databytecounts.length ≤ file.length ∧
  ifd.tag273_valueoffset + 4 * ifd.databytecounts.length ≤ file.length ∧
  tag.offset + 12 ≤ file.length ∧
  tag.valueoffset + tag.count ≤ file.length ∧
  2 ≤ ifd.dataoffsets.headD 0 ∧ 2 ≤ ifd.tag259_valueoffset ∧
  2 ≤ ifd.tag279_valueoffset ∧ 2 ≤ ifd.tag273_valueoffset ∧ 2 ≤ tag.valueoffset ∧
  tag.count = tag.description.length ∧
  ifd.compression < 2147483648 ∧
  (∀ c ∈ ifd.databytecounts, c < 2147483648) ∧
  (∀ o ∈ ifd.dataoffsets, o < 2147483648)

instance (file : List Nat) (ifd : TiffIFD) (tag : DescriptionTag) :
    Decidable (C1WF file ifd tag) := by
  unfold C1WF
  infer_instance

theorem meta_restore_length (f : List Nat) (cvo cnt do4 vo : Nat) (cbvb value : List Nat)
    (h1 : cvo + cnt ≤ f.length) (h2 : do4 + cbvb.length ≤ f.length)
    (h3 : vo + value.length ≤ f.length) :
    (writeAt (writeAt (writeAt f cvo (List.replicate cnt 32)) do4 cbvb) vo value).length =
      f.length := by
  have l1 : (writeAt f cvo (List.replicate cnt 32)).length = f.length := by
    apply writeAt_length_of_le
    simpa using h1
  have l2 : (writeAt (writeAt f cvo (List.replicate cnt 32)) do4 cbvb).length =
      f.length := by
    rw [writeAt_length_of_le _ _ _ (by omega)]
    exact l1
  rw [writeAt_length_of_le _ _ _ (by omega)]
  exact l2

theorem save_image_counts (file : List Nat) (ifd : TiffIFD) :
    (save_image_data_to_store file ifd).data_byte_counts = ifd.databytecounts := rfl

theorem save_image_offsets (file : List Nat) (ifd : TiffIFD) :
    (save_image_data_to_store file ifd).data_offsets = ifd.dataoffsets := rfl

theorem save_image_comp (file : List Nat) (ifd : TiffIFD) :
    (save_image_data_to_store file ifd).compression = ifd.compression := rfl

theorem update_offsets (ifd : TiffIFD) (nc no : List Nat) :
    ({ ifd with databytecounts := nc, dataoffsets := no } : TiffIFD).dataoffsets = no := rfl

theorem update_counts (ifd : TiffIFD) (nc no : List Nat) :
    ({ ifd with databytecounts := nc, dataoffsets := no } : TiffIFD).databytecounts =
      nc := rfl

theorem update_t259 (ifd : TiffIFD) (nc no : List Nat) :
    ({ ifd with databytecounts := nc, dataoffsets := no } : TiffIFD).tag259_valueoffset =
      ifd.tag259_valueoffset := rfl

theorem update_t279 (ifd : TiffIFD) (nc no : List Nat) :
    ({ ifd with databytecounts := nc, dataoffsets := no } : TiffIFD).tag279_valueoffset =
      ifd.tag279_valueoffset := rfl

theorem update_t273 (ifd : TiffIFD) (nc no : List Nat) :
    ({ ifd with databytecounts := nc, dataoffsets := no } : TiffIFD).tag273_valueoffset =
      ifd.tag273_valueoffset := rfl

set_option maxHeartbeats 800000 in
theorem c1_stageC (file fA fB : List Nat) (tag : DescriptionTag) (mlen cvo : Nat)
    (hdo12 : tag.offset + 12 ≤ file.length)
    (hvoc : tag.valueoffset + tag.count ≤ file.length)
    (hcde : tag.count = tag.description.length)
    (hcnt31 : tag.count < 2147483648) (hvo31 : tag.valueoffset < 2147483648)
    (hflen : file.length ≤ fB.length)
    (hcv : cvo + mlen ≤ fB.length)
    (hcvout : file.length ≤ cvo ∨ (cvo = tag.valueoffset ∧ mlen ≤ tag.count))
    (hBout : ∀ j, j < file.length →
      ¬(tag.valueoffset ≤ j ∧ j < tag.valueoffset + tag.count) →
      ¬(tag.offset + 4 ≤ j ∧ j < tag.offset + 12) → fB[j]? = fA[j]?)
    (hbeB : is_big_endian_file fB = is_big_endian_file file) :
    ∃ fC, back_up_metadata_svs fB [(tag.offset, mlen, cvo, meta_escrow_of_tag tag)] =
        some fC ∧
      fC.length = fB.length ∧
      (∀ j, j < file.length → fC[j]? =
        if tag.valueoffset ≤ j ∧ j < tag.valueoffset + tag.count then
          tag.description[j - tag.valueoffset]?
        else if tag.offset + 4 ≤ j ∧ j < tag.offset + 12 then
          (int_to_bytes_tc (tag.count : Int) 4 (is_big_endian_file file) ++
            int_to_bytes_tc (tag.valueoffset : Int) 4
              (is_big_endian_file file))[j - (tag.offset + 4)]?
        else fA[j]?) := by
  have hcbvb8 : (int_to_bytes_tc (tag.count : Int) 4 (is_big_endian_file file) ++
      int_to_bytes_tc (tag.valueoffset : Int) 4 (is_big_endian_file file)).length = 8 := by
    rw [List.length_append, int_to_bytes_tc_length, int_to_bytes_tc_length]
  have hCdef := back_up_metadata_one_eq fB tag.offset mlen cvo (meta_escrow_of_tag tag)
    (is_big_endian_file fB) hcv (by omega) hcnt31 hvo31
  have hmetaeq : back_up_metadata_svs fB
      [(tag.offset, mlen, cvo, meta_escrow_of_tag tag)] =
      back_up_metadata_one fB tag.offset mlen cvo (meta_escrow_of_tag tag)
        (is_big_endian_file fB) := by
    simp [back_up_metadata_svs]
  rw [hbeB] at hCdef hmetaeq
  simp only [meta_escrow_of_tag] at hCdef
  refine ⟨_, hmetaeq.trans hCdef, ?_, ?_⟩
  · exact meta_restore_length fB cvo mlen (tag.offset + 4) tag.valueoffset _ _
      hcv (by rw [hcbvb8]; omega) (by rw [← hcde]; omega)
  · intro j hj
    have hCget := meta_restore_chain_getElem fB cvo mlen (tag.offset + 4) tag.valueoffset
      (int_to_bytes_tc (tag.count : Int) 4 (is_big_endian_file file) ++
        int_to_bytes_tc (tag.valueoffset : Int) 4 (is_big_endian_file file))
      tag.description hcv (by rw [hcbvb8]; omega) (by rw [← hcde]; omega) j
    rw [← hcde, hcbvb8] at hCget
    rw [hCget]
    by_cases q1 : tag.valueoffset ≤ j ∧ j < tag.valueoffset + tag.count
    · rw [if_pos q1, if_pos q1]
    · rw [if_neg q1, if_neg q1]
      by_cases q2 : tag.offset + 4 ≤ j ∧ j < tag.offset + 12
      · rw [if_pos (show tag.offset + 4 ≤ j ∧ j < tag.offset + 4 + 8 by omega),
          if_pos q2]
      · rw [if_neg (show ¬(tag.offset + 4 ≤ j ∧ j < tag.offset + 4 + 8) by omega),
          if_neg q2,
          if_neg (show ¬(cvo ≤ j ∧ j < cvo + mlen) by
            rcases hcvout with h | ⟨h1, h2⟩ <;> omega)]
        exact hBout j hj q1 q2

set_option maxHeartbeats 1600000 in
theorem c1_core (file : List Nat) (ifd : TiffIFD) (tag : DescriptionTag) (m : List Nat)
    (fA cF dF oF e8 : List Nat) (changed : Prop) [Decidable changed]
    (newCounts newOffs : List Nat)
    (hne : ifd.dataoffsets ≠ [])
    (hlen0 : ifd.dataoffsets.length = ifd.databytecounts.length)
    (hS : ifd.dataoffsets.headD 0 + ifd.databytecounts.sum ≤ file.length)
    (h259 : ifd.tag259_valueoffset + 4 ≤ file.length)
    (h279 : ifd.tag279_valueoffset + 4 * ifd.databytecounts.length ≤ file.length)
    (h273 : ifd.tag273_valueoffset + 4 * ifd.databytecounts.length ≤ file.length)
    (hdo12 : tag.offset + 12 ≤ file.length)
    (hvoc : tag.valueoffset + tag.count ≤ file.length)
    (h2off : 2 ≤ ifd.dataoffsets.headD 0) (h2t259 : 2 ≤ ifd.tag259_valueoffset)
    (h2t279 : 2 ≤ ifd.tag279_valueoffset) (h2t273 : 2 ≤ ifd.tag273_valueoffset)
    (h2vo : 2 ≤ tag.valueoffset)
    (hcde : tag.count = tag.description.length)
    (hcomp31 : ifd.compression < 2147483648)
    (hc31 : ∀ c ∈ ifd.databytecounts, c < 2147483648)
    (ho31 : ∀ o ∈ ifd.dataoffsets, o < 2147483648)
    (hm31 : m.length < 2147483648)
    (hfA31 : fA.length < 2147483648)
    (hfAget : ∀ j, fA[j]? =
      if ifd.tag273_valueoffset ≤ j ∧ j < ifd.tag273_valueoffset + oF.length then
        oF[j - ifd.tag273_valueoffset]?
      else if file.length ≤ j then dF[j - file.length]?
      else if ifd.tag279_valueoffset ≤ j ∧ j < ifd.tag279_valueoffset + cF.length then
        cF[j - ifd.tag279_valueoffset]?
      else if changed ∧ ifd.tag259_valueoffset ≤ j ∧ j < ifd.tag259_valueoffset + 4 then
        e8[j - ifd.tag259_valueoffset]?
      else if ifd.dataoffsets.headD 0 ≤ j ∧
          j < ifd.dataoffsets.headD 0 + ifd.databytecounts.sum then some 0
      else file[j]?)
    (hfAlen : fA.length = file.length + dF.length)
    (hcFle : cF.length ≤ 4 * ifd.databytecounts.length)
    (hoFle : oF.length ≤ 4 * ifd.databytecounts.length)
    (hnewne : newOffs ≠ [])
    (hnewhead : newOffs.headD 0 = file.length)
    (hnewsum : newCounts.sum = dF.length)
    (h259F : (file.drop ifd.tag259_valueoffset).take 4 =
      int_to_bytes_tc (ifd.compression : Int) 4 (is_big_endian_file file))
    (h279F : (file.drop ifd.tag279_valueoffset).take (4 * ifd.databytecounts.length) =
      (ifd.databytecounts.map
        (fun c : Nat => int_to_bytes_tc (c : Int) 4 (is_big_endian_file file))).flatten)
    (h273F : (file.drop ifd.tag273_valueoffset).take (4 * ifd.databytecounts.length) =
      (ifd.dataoffsets.map
        (fun o : Nat => int_to_bytes_tc (o : Int) 4 (is_big_endian_file file))).flatten)
    (hcntF : (file.drop (tag.offset + 4)).take 4 =
      int_to_bytes_tc (tag.count : Int) 4 (is_big_endian_file file))
    (hvoF : (file.drop (tag.offset + 8)).take 4 =
      int_to_bytes_tc (tag.valueoffset : Int) 4 (is_big_endian_file file))
    (hdescF : (file.drop tag.valueoffset).take tag.count = tag.description) :
    ∃ fB fC fD,
      replace_metadata_svs fA [(tag, m)] = some fB ∧
      back_up_metadata_svs fB [(tag.offset, m.length,
        (if m.length < tag.description.length then tag.valueoffset else fA.length),
        meta_escrow_of_tag tag)] = some fC ∧
      back_up_image_svs fC (save_image_data_to_store file ifd)
        { ifd with databytecounts := newCounts, dataoffsets := newOffs } = some fD ∧
      ∀ j, j < file.length → fD[j]? = file[j]? := by
  have hcnt31 : tag.count < 2147483648 := by omega
  have hvo31 : tag.valueoffset < 2147483648 := by omega
  have hA0 : ∀ i, i < 2 → fA[i]? = file[i]? := by
    intro i hi
    rw [hfAget i, if_neg (by omega), if_neg (by omega), if_neg (by omega),
      if_neg (by rintro ⟨-, hx, -⟩; omega), if_neg (by omega)]
  have hbeA : is_big_endian_file fA = is_big_endian_file file :=
    is_big_endian_congr file fA (hA0 0 (by omega)) (hA0 1 (by omega))
  have hrepm : replace_metadata_svs fA [(tag, m)] =
      replace_description_one fA tag m (is_big_endian_file fA) := by
    simp [replace_metadata_svs, List.foldlM_cons, List.foldlM_nil]
  have hd0 : (save_image_data_to_store file ifd).data =
      (file.drop (ifd.dataoffsets.headD 0)).take ifd.databytecounts.sum := by
    simp [save_image_data_to_store, get_image_data, read_chunks_eq]
  have hd0len : (save_image_data_to_store file ifd).data.length =
      ifd.databytecounts.sum := by
    rw [hd0]
    simp only [List.length_take, List.length_drop]
    omega
  obtain ⟨fB, fC, hfB, hfC, hfCgelen, hCfile⟩ :
      ∃ fB fC,
        replace_metadata_svs fA [(tag, m)] = some fB ∧
        back_up_metadata_svs fB [(tag.offset, m.length,
          (if m.length < tag.description.length then tag.valueoffset else fA.length),
          meta_escrow_of_tag tag)] = some fC ∧
        file.length + dF.length ≤ fC.length ∧
        (∀ j, j < file.length → fC[j]? =
          if tag.valueoffset ≤ j ∧ j < tag.valueoffset + tag.count then
            tag.description[j - tag.valueoffset]?
          else if tag.offset + 4 ≤ j ∧ j < tag.offset + 12 then
            (int_to_bytes_tc (tag.count : Int) 4 (is_big_endian_file file) ++
              int_to_bytes_tc (tag.valueoffset : Int) 4
                (is_big_endian_file file))[j - (tag.offset + 4)]?
          else fA[j]?) := by
    by_cases hpad : m.length < tag.description.length
    · have hBdef := replace_description_one_pad_eq fA tag m (is_big_endian_file fA)
        hpad hm31
      obtain ⟨fB, hfBeq⟩ : ∃ x : List Nat, writeAt (writeAt fA (tag.offset + 4)
          (int_to_bytes_tc (m.length : Int) 4 (is_big_endian_file fA)))
          tag.valueoffset (ljust m tag.count) = x := ⟨_, rfl⟩
      rw [hfBeq] at hBdef
      have hlj : (ljust m tag.count).length = tag.count := by
        simp only [ljust, List.length_append, List.length_replicate]
        omega
      have hfBlen : fB.length = fA.length := by
        rw [← hfBeq]
        have l1 : (writeAt fA (tag.offset + 4)
            (int_to_bytes_tc (m.length : Int) 4 (is_big_endian_file fA))).length =
            fA.length := by
          rw [writeAt_length_of_le _ _ _ (by rw [int_to_bytes_tc_length]; omega)]
        rw [writeAt_length_of_le _ _ _ (by rw [hlj, l1]; omega)]
        exact l1
      have hBout : ∀ j, j < file.length →
          ¬(tag.valueoffset ≤ j ∧ j < tag.valueoffset + tag.count) →
          ¬(tag.offset + 4 ≤ j ∧ j < tag.offset + 12) → fB[j]? = fA[j]? := by
        intro j hj hq1 hq2
        rw [← hfBeq, write2_chain_getElem fA _ _ (tag.offset + 4) tag.valueoffset
          (by rw [int_to_bytes_tc_length]; omega) (by rw [hlj]; omega) j,
          if_neg (show ¬(tag.valueoffset ≤ j ∧ j < tag.valueoffset +
            (ljust m tag.count).length) by rw [hlj]; omega),
          if_neg (show ¬(tag.offset + 4 ≤ j ∧ j < tag.offset + 4 +
            (int_to_bytes_tc (m.length : Int) 4 (is_big_endian_file fA)).length) by
            rw [int_to_bytes_tc_length]; omega)]
      have hB0 : ∀ i, i < 2 → fB[i]? = file[i]? := by
        intro i hi
        rw [hBout i (by omega) (by omega) (by omega)]
        exact hA0 i hi
      have hbeB : is_big_endian_file fB = is_big_endian_file file :=
        is_big_endian_congr file fB (hB0 0 (by omega)) (hB0 1 (by omega))
      obtain ⟨fC, hC1, hC2, hC3⟩ := c1_stageC file fA fB tag m.length tag.valueoffset
        hdo12 hvoc hcde hcnt31 hvo31 (by omega) (by omega)
        (Or.inr ⟨rfl, by omega⟩) hBout hbeB
      refine ⟨fB, fC, ?_, ?_, by omega, hC3⟩
      · rw [hrepm]
        exact hBdef
      · rw [if_pos hpad]
        exact hC1
    · push_neg at hpad
      have hBdef := replace_description_one_app_eq fA tag m (is_big_endian_file fA)
        hpad hm31 (by omega) (by omega) hfA31
      obtain ⟨fB, hfBeq⟩ : ∃ x : List Nat, writeAt
          ((writeAt (writeAt fA (tag.offset + 4)
            (int_to_bytes_tc (m.length : Int) 4 (is_big_endian_file fA)))
            tag.valueoffset (List.replicate tag.count 32)) ++ m)
          (tag.offset + 8)
          (int_to_bytes_tc (fA.length : Int) 4 (is_big_endian_file fA)) = x := ⟨_, rfl⟩
      rw [hfBeq] at hBdef
      have l1 : (writeAt fA (tag.offset + 4)
          (int_to_bytes_tc (m.length : Int) 4 (is_big_endian_file fA))).length =
          fA.length := by
        rw [writeAt_length_of_le _ _ _ (by rw [int_to_bytes_tc_length]; omega)]
      have l2 : (writeAt (writeAt fA (tag.offset + 4)
          (int_to_bytes_tc (m.length : Int) 4 (is_big_endian_file fA)))
          tag.valueoffset (List.replicate tag.count 32)).length = fA.length := by
        rw [writeAt_length_of_le _ _ _ (by rw [List.length_replicate, l1]; omega)]
        exact l1
      have hfBlen : fB.length = fA.length + m.length := by
        rw [← hfBeq, writeAt_length_of_le _ _ _ (by
          rw [List.length_append, l2, int_to_bytes_tc_length]
          omega), List.length_append, l2]
      have hBout : ∀ j, j < file.length →
          ¬(tag.valueoffset ≤ j ∧ j < tag.valueoffset + tag.count) →
          ¬(tag.offset + 4 ≤ j ∧ j < tag.offset + 12) → fB[j]? = fA[j]? := by
        intro j hj hq1 hq2
        have hinner : ((writeAt (writeAt fA (tag.offset + 4)
            (int_to_bytes_tc (m.length : Int) 4 (is_big_endian_file fA)))
            tag.valueoffset (List.replicate tag.count 32)) ++ m)[j]? = fA[j]? := by
          rw [List.getElem?_append_left (by rw [l2]; omega),
            write2_chain_getElem fA _ _ (tag.offset + 4) tag.valueoffset
              (by rw [int_to_bytes_tc_length]; omega)
              (by rw [List.length_replicate]; omega) j,
            if_neg (show ¬(tag.valueoffset ≤ j ∧ j < tag.valueoffset +
              (List.replicate tag.count 32).length) by
              rw [List.length_replicate]; omega),
            if_neg (show ¬(tag.offset + 4 ≤ j ∧ j < tag.offset + 4 +
              (int_to_bytes_tc (m.length : Int) 4 (is_big_endian_file fA)).length) by
              rw [int_to_bytes_tc_length]; omega)]
        rw [← hfBeq, writeAt_getElem _ _ _ j (by
          rw [List.length_append, l2]
          omega)]
        by_cases hj8 : j < tag.offset + 8
        · rw [if_pos hj8]
          exact hinner
        · rw [if_neg hj8, if_neg (show ¬ j < tag.offset + 8 +
            (int_to_bytes_tc (fA.length : Int) 4 (is_big_endian_file fA)).length by
            rw [int_to_bytes_tc_length]; omega)]
          exact hinner
      have hB0 : ∀ i, i < 2 → fB[i]? = file[i]? := by
        intro i hi
        rw [hBout i (by omega) (by omega) (by omega)]
        exact hA0 i hi
      have hbeB : is_big_endian_file fB = is_big_endian_file file :=
        is_big_endian_congr file fB (hB0 0 (by omega)) (hB0 1 (by omega))
      obtain ⟨fC, hC1, hC2, hC3⟩ := c1_stageC file fA fB tag m.length fA.length
        hdo12 hvoc hcde hcnt31 hvo31 (by omega) (by omega) (Or.inl (by omega))
        hBout hbeB
      refine ⟨fB, fC, ?_, ?_, by omega, hC3⟩
      · rw [hrepm]
        exact hBdef
      · rw [if_neg (by omega)]
        exact hC1
  have hfC0 : ∀ i, i < 2 → fC[i]? = file[i]? := by
    intro i hi
    rw [hCfile i (by omega), if_neg (by omega), if_neg (by omega)]
    exact hA0 i hi
  have hbeC : is_big_endian_file fC = is_big_endian_file file :=
    is_big_endian_congr file fC (hfC0 0 (by omega)) (hfC0 1 (by omega))
  have hDdef := back_up_image_svs_eq fC (save_image_data_to_store file ifd)
    { ifd with databytecounts := newCounts, dataoffsets := newOffs }
    (by rw [update_offsets]; exact hnewne)
    (by rw [save_image_offsets]; exact hne)
    (by rw [update_offsets, update_counts, hnewhead, hnewsum]; omega)
    (by rw [update_t259]; omega)
    (by rw [update_t279, save_image_counts]; omega)
    (by rw [update_t273]; omega)
    (by rw [save_image_comp]; exact hcomp31)
    (by rw [save_image_counts]; exact hc31)
    (by rw [save_image_offsets]; exact ho31)
  simp only [save_image_counts, save_image_offsets, save_image_comp, update_offsets,
    update_counts, update_t259, update_t279, update_t273] at hDdef
  rw [hnewhead, hnewsum, hbeC] at hDdef
  obtain ⟨fD, hfDeq⟩ : ∃ x : List Nat, writeAt (writeAt (writeAt (writeAt
      (writeAt fC file.length (List.replicate dF.length 0))
      ifd.tag259_valueoffset
      (int_to_bytes_tc (ifd.compression : Int) 4 (is_big_endian_file file)))
      ifd.tag279_valueoffset
      ((ifd.databytecounts.map
        (fun c : Nat => int_to_bytes_tc (c : Int) 4 (is_big_endian_file file))).flatten))
      ifd.tag273_valueoffset
      ((ifd.dataoffsets.map
        (fun o : Nat => int_to_bytes_tc (o : Int) 4 (is_big_endian_file file))).flatten))
      (ifd.dataoffsets.headD 0) ((save_image_data_to_store file ifd).data) = x :=
    ⟨_, rfl⟩
  rw [hfDeq] at hDdef
  refine ⟨fB, fC, fD, hfB, hfC, hDdef, ?_⟩
  intro j hj
  have hcF0len : ((ifd.databytecounts.map
      (fun c : Nat =>
        int_to_bytes_tc (c : Int) 4 (is_big_endian_file file))).flatten).length =
      4 * ifd.databytecounts.length := by
    rw [flatten_map_tc_length]
  have hoF0len : ((ifd.dataoffsets.map
      (fun o : Nat =>
        int_to_bytes_tc (o : Int) 4 (is_big_endian_file file))).flatten).length =
      4 * ifd.databytecounts.length := by
    rw [flatten_map_tc_length, hlen0]
  have hcompBlen :
      (int_to_bytes_tc (ifd.compression : Int) 4 (is_big_endian_file file)).length = 4 :=
    int_to_bytes_tc_length _ _ _
  rw [← hfDeq, image_restore_chain_getElem fC file.length dF.length
    ifd.tag259_valueoffset ifd.tag279_valueoffset ifd.tag273_valueoffset
    (ifd.dataoffsets.headD 0) _ _ _ _
    (by omega) (by rw [hcompBlen]; omega) (by rw [hcF0len]; omega)
    (by rw [hoF0len]; omega) (by rw [hd0len]; omega) j]
  by_cases r1 : ifd.dataoffsets.headD 0 ≤ j ∧
      j < ifd.dataoffsets.headD 0 + (save_image_data_to_store file ifd).data.length
  · rw [if_pos r1, hd0, seg_getElem file (ifd.dataoffsets.headD 0)
      ifd.databytecounts.sum (j - ifd.dataoffsets.headD 0) (by rw [hd0len] at r1; omega)]
    exact getElem?_congr_idx file (by omega)
  rw [if_neg r1]
  by_cases r2 : ifd.tag273_valueoffset ≤ j ∧ j < ifd.tag273_valueoffset +
      ((ifd.dataoffsets.map
        (fun o : Nat =>
          int_to_bytes_tc (o : Int) 4 (is_big_endian_file file))).flatten).length
  · rw [if_pos r2, ← h273F, seg_getElem file ifd.tag273_valueoffset
      (4 * ifd.databytecounts.length) (j - ifd.tag273_valueoffset)
      (by rw [hoF0len] at r2; omega)]
    exact getElem?_congr_idx file (by omega)
  rw [if_neg r2]
  by_cases r3 : ifd.tag279_valueoffset ≤ j ∧ j < ifd.tag279_valueoffset +
      ((ifd.databytecounts.map
        (fun c : Nat =>
          int_to_bytes_tc (c : Int) 4 (is_big_endian_file file))).flatten).length
  · rw [if_pos r3, ← h279F, seg_getElem file ifd.tag279_valueoffset
      (4 * ifd.databytecounts.length) (j - ifd.tag279_valueoffset)
      (by rw [hcF0len] at r3; omega)]
    exact getElem?_congr_idx file (by omega)
  rw [if_neg r3]
  by_cases r4 : ifd.tag259_valueoffset ≤ j ∧ j < ifd.tag259_valueoffset +
      (int_to_bytes_tc (ifd.compression : Int) 4 (is_big_endian_file file)).length
  · rw [if_pos r4, ← h259F, seg_getElem file ifd.tag259_valueoffset 4
      (j - ifd.tag259_valueoffset) (by rw [hcompBlen] at r4; omega)]
    exact getElem?_congr_idx file (by omega)
  rw [if_neg r4, if_neg (by omega), hCfile j hj]
  by_cases q1 : tag.valueoffset ≤ j ∧ j < tag.valueoffset + tag.count
  · rw [if_pos q1, ← hdescF, seg_getElem file tag.valueoffset tag.count
      (j - tag.valueoffset) (by omega)]
    exact getElem?_congr_idx file (by omega)
  rw [if_neg q1]
  by_cases q2 : tag.offset + 4 ≤ j ∧ j < tag.offset + 12
  · rw [if_pos q2]
    by_cases q3 : j < tag.offset + 8
    · rw [List.getElem?_append_left (by rw [int_to_bytes_tc_length]; omega), ← hcntF,
        seg_getElem file (tag.offset + 4) 4 (j - (tag.offset + 4)) (by omega)]
      exact getElem?_congr_idx file (by omega)
    · rw [List.getElem?_append_right (by rw [int_to_bytes_tc_length]; omega),
        int_to_bytes_tc_length, ← hvoF,
        seg_getElem file (tag.offset + 8) 4 (j - (tag.offset + 4) - 4) (by omega)]
      exact getElem?_congr_idx file (by omega)
  rw [if_neg q2, hfAget j,
    if_neg (by rintro ⟨hu, hv⟩; exact r2 ⟨hu, by omega⟩),
    if_neg (by omega),
    if_neg (by rintro ⟨hu, hv⟩; exact r3 ⟨hu, by omega⟩),
    if_neg (by rintro ⟨-, hu, hv⟩; exact r4 ⟨hu, by omega⟩),
    if_neg (by rintro ⟨hu, hv⟩; exact r1 ⟨hu, by omega⟩)]

theorem rewrite_chain_length (file cF dF oF e8 : List Nat) (off0 S t259 t279 t273 : Nat)
    (changed : Prop) [Decidable changed]
    (hS : off0 + S ≤ file.length) (h259 : t259 + e8.length ≤ file.length)
    (h279 : t279 + cF.length ≤ file.length) (h273 : t273 + oF.length ≤ file.length) :
    (writeAt ((writeAt (if changed then
        writeAt (writeAt file off0 (List.replicate S 0)) t259 e8
      else writeAt file off0 (List.replicate S 0)) t279 cF) ++ dF) t273 oF).length =
      file.length + dF.length := by
  have l1 : (writeAt file off0 (List.replicate S 0)).length = file.length := by
    apply writeAt_length_of_le
    simpa using hS
  have l2 : (if changed then writeAt (writeAt file off0 (List.replicate S 0)) t259 e8
      else writeAt file off0 (List.replicate S 0)).length = file.length := by
    split_ifs
    · rw [writeAt_length_of_le _ _ _ (by omega)]
      exact l1
    · exact l1
  have l3 : ((writeAt (if changed then
      writeAt (writeAt file off0 (List.replicate S 0)) t259 e8
      else writeAt file off0 (List.replicate S 0)) t279 cF) ++ dF).length =
      file.length + dF.length := by
    rw [List.length_append, writeAt_length_of_le _ _ _ (by omega), l2]
  rw [writeAt_length_of_le _ _ _ (by omega)]
  exact l3

/-- C1: round trip.  For every well-formed slide file, after
`replace_label_with_pseudonym_svs` and `replace_metadata_svs` have
rewritten the clone, applying `back_up_metadata_svs` with the escrowed
description record and `back_up_image_svs` with the escrowed strip data
(byte counts, offsets, compression, concatenated strip bytes, as captured
by `save_image_data_to_store` / `generate_metadata_svs` from the original)
yields a file whose every byte up to the original end-of-file equals the
original file's byte at the same offset; only the appended trailing
regions beyond the original end-of-file (which the back-up wipes to
zeros/spaces) may differ. -/
theorem c1_round_trip_restores_bytes (pred : Raster → Raster)
    (z w : List Nat → List Nat) (file : List Nat) (pl : Raster) (ifd : TiffIFD)
    (tag : DescriptionTag) (m : List Nat)
    (hWF : C1WF file ifd tag)
    (hn1 : rewriter_tiles pred z w pl ifd ≠ [])
    (hn1le : (rewriter_tiles pred z w pl ifd).length ≤ ifd.databytecounts.length)
    (hcts : ∀ c ∈ (rewriter_tiles pred z w pl ifd).map (fun t => t.count),
      c < 2147483648)
    (hbig : file.length +
      (((rewriter_tiles pred z w pl ifd).map (fun t => t.data)).flatten).length +
      m.length < 2147483648)
    (h259F : (file.drop ifd.tag259_valueoffset).take 4 =
      int_to_bytes_tc (ifd.compression : Int) 4 (is_big_endian_file file))
    (h279F : (file.drop ifd.tag279_valueoffset).take (4 * ifd.databytecounts.length) =
      (ifd.databytecounts.map
        (fun c : Nat => int_to_bytes_tc (c : Int) 4 (is_big_endian_file file))).flatten)
    (h273F : (file.drop ifd.tag273_valueoffset).take (4 * ifd.databytecounts.length) =
      (ifd.dataoffsets.map
        (fun o : Nat => int_to_bytes_tc (o : Int) 4 (is_big_endian_file file))).flatten)
    (hcntF : (file.drop (tag.offset + 4)).take 4 =
      int_to_bytes_tc (tag.count : Int) 4 (is_big_endian_file file))
    (hvoF : (file.drop (tag.offset + 8)).take 4 =
      int_to_bytes_tc (tag.valueoffset : Int) 4 (is_big_endian_file file))
    (hdescF : (file.drop tag.valueoffset).take tag.count = tag.description) :
    ∃ fA fB fC fD,
      replace_label_with_pseudonym_svs pred z w file pl ifd = some fA ∧
      replace_metadata_svs fA [(tag, m)] = some fB ∧
      back_up_metadata_svs fB [(tag.offset, m.length,
        (if m.length < tag.description.length then tag.valueoffset else fA.length),
        meta_escrow_of_tag tag)] = some fC ∧
      back_up_image_svs fC (save_image_data_to_store file ifd)
        { ifd with
          databytecounts := (rewriter_tiles pred z w pl ifd).map (fun t => t.count),
          dataoffsets := stripOffsetsFrom file.length
            ((rewriter_tiles pred z w pl ifd).map (fun t => t.data)) } = some fD ∧
      ∀ j, j < file.length → fD[j]? = file[j]? := by
  obtain ⟨hne, hlen0, hS, h259, h279, h273, hdo12, hvoc, h2off, h2t259, h2t279,
    h2t273, h2vo, hcde, hcomp31, hc31, ho31⟩ := hWF
  have hcnteq := rewriter_tiles_count_eq pred z w pl ifd
  have h279n1 : ifd.tag279_valueoffset + 4 * (rewriter_tiles pred z w pl ifd).length ≤
      file.length := by omega
  have h273n1 : ifd.tag273_valueoffset + 4 * (rewriter_tiles pred z w pl ifd).length ≤
      file.length := by omega
  have hDsum : ((((rewriter_tiles pred z w pl ifd).map (fun t => t.data)).map
      List.length).sum) =
      (((rewriter_tiles pred z w pl ifd).map (fun t => t.data)).flatten).length := by
    rw [List.length_flatten]
  have ho : ∀ o ∈ stripOffsetsFrom file.length
      ((rewriter_tiles pred z w pl ifd).map (fun t => t.data)), o < 2147483648 := by
    intro o hoo
    have h1 := stripOffsetsFrom_mem_le file.length _ o hoo
    omega
  have hA := replace_label_eq pred z w file pl ifd hne hS h259 h279n1 h273n1 hcts ho
  have hcFlen : ((((rewriter_tiles pred z w pl ifd).map (fun t => t.count)).map
      (fun c : Nat =>
        int_to_bytes_tc (c : Int) 4 (is_big_endian_file file))).flatten).length =
      4 * (rewriter_tiles pred z w pl ifd).length := by
    rw [flatten_map_tc_length, List.length_map]
  have hoFlen : (((stripOffsetsFrom file.length
      ((rewriter_tiles pred z w pl ifd).map (fun t => t.data))).map
      (fun o : Nat =>
        int_to_bytes_tc (o : Int) 4 (is_big_endian_file file))).flatten).length =
      4 * (rewriter_tiles pred z w pl ifd).length := by
    rw [flatten_map_tc_length, stripOffsetsFrom_length, List.length_map]
  obtain ⟨fA, hfAeq⟩ : ∃ x : List Nat, writeAt
      (writeAt
        (if rewriter_compression ifd ≠ ifd.compression then
          writeAt
            (writeAt file (ifd.dataoffsets.headD 0)
              (List.replicate ifd.databytecounts.sum 0))
            ifd.tag259_valueoffset
            (int_to_bytes_tc ((rewriter_compression ifd : Nat) : Int) 4
              (is_big_endian_file file))
        else
          writeAt file (ifd.dataoffsets.headD 0)
            (List.replicate ifd.databytecounts.sum 0))
        ifd.tag279_valueoffset
        ((((rewriter_tiles pred z w pl ifd).map (fun t => t.count)).map
          (fun c : Nat => int_to_bytes_tc (c : Int) 4 (is_big_endian_file file))).flatten)
      ++ ((rewriter_tiles pred z w pl ifd).map (fun t => t.data)).flatten)
      ifd.tag273_valueoffset
      (((stripOffsetsFrom file.length
          ((rewriter_tiles pred z w pl ifd).map (fun t => t.data))).map
        (fun o : Nat =>
          int_to_bytes_tc (o : Int) 4 (is_big_endian_file file))).flatten) = x :=
    ⟨_, rfl⟩
  rw [hfAeq] at hA
  have hfAlen : fA.length = file.length +
      (((rewriter_tiles pred z w pl ifd).map (fun t => t.data)).flatten).length := by
    rw [← hfAeq]
    exact rewrite_chain_length file _ _ _ _ _ _ _ _ _ _ hS
      (by rw [int_to_bytes_tc_length]; omega) (by rw [hcFlen]; omega)
      (by rw [hoFlen]; omega)
  have hnewne : stripOffsetsFrom file.length
      ((rewriter_tiles pred z w pl ifd).map (fun t => t.data)) ≠ [] := by
    intro hcon
    have hl := congrArg List.length hcon
    rw [stripOffsetsFrom_length, List.length_map, List.length_nil] at hl
    exact hn1 (List.length_eq_zero.mp hl)
  have hnewhead : (stripOffsetsFrom file.length
      ((rewriter_tiles pred z w pl ifd).map (fun t => t.data))).headD 0 =
      file.length := by
    cases htl : (rewriter_tiles pred z w pl ifd).map (fun t => t.data) with
    | nil =>
      rw [List.map_eq_nil_iff] at htl
      exact absurd htl hn1
    | cons d ds => rw [stripOffsetsFrom, List.headD_cons]
  have hnewsum : ((rewriter_tiles pred z w pl ifd).map (fun t => t.count)).sum =
      (((rewriter_tiles pred z w pl ifd).map (fun t => t.data)).flatten).length := by
    rw [List.length_flatten, List.map_map]
    exact congrArg List.sum (List.map_congr_left (fun t ht => hcnteq t ht))
  obtain ⟨fB, fC, fD, hfB, hfC, hfD, hbytes⟩ := c1_core file ifd tag m fA _ _ _ _
    (rewriter_compression ifd ≠ ifd.compression) _ _
    hne hlen0 hS h259 h279 h273 hdo12 hvoc h2off h2t259 h2t279 h2t273 h2vo hcde
    hcomp31 hc31 ho31 (by omega) (by rw [hfAlen]; omega)
    (fun j => hfAeq ▸ rewrite_chain_getElem file _ _ _ _ (ifd.dataoffsets.headD 0)
      ifd.databytecounts.sum ifd.tag259_valueoffset ifd.tag279_valueoffset
      ifd.tag273_valueoffset (rewriter_compression ifd ≠ ifd.compression)
      hS h259 (by rw [hcFlen]; omega) (by rw [hoFlen]; omega)
      (int_to_bytes_tc_length _ _ _) j)
    hfAlen (by rw [hcFlen]; omega) (by rw [hoFlen]; omega)
    hnewne hnewhead hnewsum h259F h279F h273F hcntF hvoF hdescF
  exact ⟨fA, fB, fC, fD, hA, hfB, hfC, hfD, hbytes⟩

/-- A little-endian sample slide for the round trip: header `II` (bytes
0-1), a description tag entry at offset 2 (count field at 6, value-offset
field at 10), tag 259/279/273 value slots at 14/18/26, the description
`AB` at 34, and two 1-byte strips at 36 and 37. -/
def c1_file : List Nat :=
  [73, 73, 0, 0, 0, 0,
   2, 0, 0, 0,
   34, 0, 0, 0,
   1, 0, 0, 0,
   1, 0, 0, 0, 1, 0, 0, 0,
   36, 0, 0, 0, 37, 0, 0, 0,
   65, 66,
   7, 9]

def c1_ifd : TiffIFD := ⟨1, 1, 1, [1, 1], [36, 37], 14, 18, 26⟩

def c1_tag : DescriptionTag := ⟨2, 2, 34, [65, 66]⟩

def c1_label : Raster := [[[5]], [[6]]]

/-- Witness for C1: on the concrete sample slide, pseudonymizing the
label and the description and then backing both up from the escrow
restores every byte up to the original end-of-file. -/
theorem c1_round_trip_restores_bytes_witness :
    C1WF c1_file c1_ifd c1_tag ∧
    rewriter_tiles (fun r => r) (fun x => x) (fun x => x) c1_label c1_ifd ≠ [] ∧
    (∃ fA fB fC fD,
      replace_label_with_pseudonym_svs (fun r => r) (fun x => x) (fun x => x)
        c1_file c1_label c1_ifd = some fA ∧
      replace_metadata_svs fA [(c1_tag, [77])] = some fB ∧
      back_up_metadata_svs fB [(c1_tag.offset, ([77] : List Nat).length,
        (if ([77] : List Nat).length < c1_tag.description.length then c1_tag.valueoffset
          else fA.length),
        meta_escrow_of_tag c1_tag)] = some fC ∧
      back_up_image_svs fC (save_image_data_to_store c1_file c1_ifd)
        { c1_ifd with
          databytecounts := (rewriter_tiles (fun r => r) (fun x => x) (fun x => x)
            c1_label c1_ifd).map (fun t => t.count),
          dataoffsets := stripOffsetsFrom c1_file.length
            ((rewriter_tiles (fun r => r) (fun x => x) (fun x => x)
              c1_label c1_ifd).map (fun t => t.data)) } = some fD ∧
      ∀ j, j < c1_file.length → fD[j]? = c1_file[j]?) :=
  ⟨by decide, by decide,
    c1_round_trip_restores_bytes (fun r => r) (fun x => x) (fun x => x) c1_file c1_label
      c1_ifd c1_tag [77] (by decide) (by decide) (by decide) (by decide) (by decide)
      (by decide) (by decide) (by decide) (by decide) (by decide) (by decide)⟩

end WSIPseudo
